import Mathlib

/-!
Verification of the cmcp command-line wrapper (Go) against its design
specification, via a shallow embedding of the relevant Go functions in
Lean 4.

The embedding covers:
* the secret-masking helpers of `internal/mcp` (`isSensitiveKey`,
  `maskValue`, `getBashVariable`, `MaskSensitiveArgs`, `MaskSensitiveJSON`,
  `MaskSensitiveJSONPretty`) and `cmd/start.go` (`maskSensitiveOutput`);
* the command builder of `internal/mcp/claude_cmd_builder.go`
  (`buildStartArgs`, `buildStartArgsJSON` and the env-driven selection
  made in `StartServer`);
* the configuration store of `internal/config`
  (`MCPServer.UnmarshalJSON`, `MCPServer.MarshalJSON`, `Load`);
* the post-launch verification loop (`VerifyServerStartedVerbose`) and
  the bulk stop operation (`StopAllServers` / `IsRunning`).

Go strings are modelled as Lean `String` manipulated through their
character lists; Go `map[string]T` values are modelled as association
lists with Go's insert-replaces semantics (`mapInsert`); JSON documents
are modelled by the inductive type `Json` below, with JSON numbers kept
as opaque integers (none of the embedded code computes with them).
External effects (file system, subprocess invocations, sleeps) are
modelled by explicit inputs and outputs: the file system as an optional
parse result, subprocess results as oracles `String → Bool`, poll
outputs as lists of lines, and sleeps as a returned list of durations.
-/

namespace Cmcp

/-! ## Generic string helpers (counterparts of Go's `strings` package) -/

/-- `listIsPfx p l` is `strings.HasPrefix` at the character-list level. -/
def listIsPfx : List Char → List Char → Bool
  | [], _ => true
  | _ :: _, [] => false
  | p :: ps, c :: cs => p == c && listIsPfx ps cs

/-- `strings.HasPrefix s p`. -/
def strHasPfx (s p : String) : Bool :=
  listIsPfx p.data s.data

/-- Substring containment on character lists (`strings.Contains`). -/
def listContainsSub : List Char → List Char → Bool
  | l, p =>
    if listIsPfx p l then true
    else
      match l with
      | [] => false
      | _ :: t => listContainsSub t p

/-- `strings.Contains s sub`. -/
def strContains (s sub : String) : Bool :=
  listContainsSub s.data sub.data

/-- First index of an occurrence of `p` in `l` (`strings.Index`). -/
def listIndexSub : List Char → List Char → Option Nat
  | l, p =>
    if listIsPfx p l then some 0
    else
      match l with
      | [] => none
      | _ :: t => (listIndexSub t p).map (· + 1)

/-- `strings.ToUpper` (character-wise, as for ASCII input). -/
def strToUpper (s : String) : String :=
  ⟨s.data.map Char.toUpper⟩

/-- Split at the first occurrence of `c`: `strings.SplitN s (c) 2`.
`none` when `c` does not occur. -/
def listBreakAt (c : Char) : List Char → Option (List Char × List Char)
  | [] => none
  | x :: xs =>
    if x == c then some ([], xs)
    else (listBreakAt c xs).map (fun p => (x :: p.1, p.2))

/-- `strings.SplitN s "=" 2`, returning the two parts when `=` occurs. -/
def splitEq2 (s : String) : Option (String × String) :=
  (listBreakAt '=' s.data).map (fun p => (⟨p.1⟩, ⟨p.2⟩))

/-- `strings.TrimPrefix s p`. -/
def strTrimPfx (s p : String) : String :=
  if strHasPfx s p then ⟨s.data.drop p.data.length⟩ else s

/-! ## Sensitive-key classification (`internal/mcp`, security helpers) -/

/-- Go: `sensitivePatterns` — the fixed list of sensitive substrings. -/
def sensitivePatterns : List String :=
  ["TOKEN", "KEY", "SECRET", "PASSWORD", "PAT", "CREDENTIAL", "AUTH"]

/-- Go: `isSensitiveKey` — upper-cases the key and tests each pattern for
substring containment. -/
def isSensitiveKey (key : String) : Bool :=
  sensitivePatterns.any (fun pattern => strContains (strToUpper key) pattern)

/-- Go: `maskValue` — empty values stay empty, anything else becomes `***`. -/
def maskValue (value : String) : String :=
  if value.data.length = 0 then "" else "***"

/-- Independent rendering of the spec's words "key containing,
case-insensitively, the substring `pat`": some character-aligned slice of
`key` matches `pat` character by character after upper-casing each
character. Used to compare the code's behaviour against the spec. -/
def containsCI (key pat : String) : Bool :=
  (List.range (key.data.length + 1)).any
    (fun i => listIsPfx pat.data ((key.data.drop i).map Char.toUpper))

/-! ## JSON documents and Go-map association lists -/

/-- Generic JSON values (`interface{}` holding decoded JSON in Go).
Numbers are opaque here: the embedded code never computes with them. -/
inductive Json where
  | null : Json
  | bool (b : Bool) : Json
  | num (n : Int) : Json
  | str (s : String) : Json
  | arr (elems : List Json) : Json
  | obj (fields : List (String × Json)) : Json

mutual

def Json.decEq : (a b : Json) → Decidable (a = b)
  | .null, .null => isTrue rfl
  | .bool a, .bool b =>
    if h : a = b then isTrue (by rw [h])
    else isFalse (by intro hc; cases hc; exact h rfl)
  | .num a, .num b =>
    if h : a = b then isTrue (by rw [h])
    else isFalse (by intro hc; cases hc; exact h rfl)
  | .str a, .str b =>
    if h : a = b then isTrue (by rw [h])
    else isFalse (by intro hc; cases hc; exact h rfl)
  | .arr a, .arr b =>
    match Json.decEqList a b with
    | isTrue h => isTrue (by rw [h])
    | isFalse h => isFalse (by intro hc; cases hc; exact h rfl)
  | .obj a, .obj b =>
    match Json.decEqFields a b with
    | isTrue h => isTrue (by rw [h])
    | isFalse h => isFalse (by intro hc; cases hc; exact h rfl)
  | .null, .bool _ | .null, .num _ | .null, .str _ | .null, .arr _
  | .null, .obj _ => isFalse (by intro h; cases h)
  | .bool _, .null | .bool _, .num _ | .bool _, .str _ | .bool _, .arr _
  | .bool _, .obj _ => isFalse (by intro h; cases h)
  | .num _, .null | .num _, .bool _ | .num _, .str _ | .num _, .arr _
  | .num _, .obj _ => isFalse (by intro h; cases h)
  | .str _, .null | .str _, .bool _ | .str _, .num _ | .str _, .arr _
  | .str _, .obj _ => isFalse (by intro h; cases h)
  | .arr _, .null | .arr _, .bool _ | .arr _, .num _ | .arr _, .str _
  | .arr _, .obj _ => isFalse (by intro h; cases h)
  | .obj _, .null | .obj _, .bool _ | .obj _, .num _ | .obj _, .str _
  | .obj _, .arr _ => isFalse (by intro h; cases h)

def Json.decEqList : (a b : List Json) → Decidable (a = b)
  | [], [] => isTrue rfl
  | [], _ :: _ => isFalse (by intro h; cases h)
  | _ :: _, [] => isFalse (by intro h; cases h)
  | x :: xs, y :: ys =>
    match Json.decEq x y with
    | isTrue h₁ =>
      match Json.decEqList xs ys with
      | isTrue h₂ => isTrue (by rw [h₁, h₂])
      | isFalse h₂ => isFalse (by intro hc; cases hc; exact h₂ rfl)
    | isFalse h₁ => isFalse (by intro hc; cases hc; exact h₁ rfl)

def Json.decEqFields : (a b : List (String × Json)) → Decidable (a = b)
  | [], [] => isTrue rfl
  | [], _ :: _ => isFalse (by intro h; cases h)
  | _ :: _, [] => isFalse (by intro h; cases h)
  | (k₁, v₁) :: xs, (k₂, v₂) :: ys =>
    if hk : k₁ = k₂ then
      match Json.decEq v₁ v₂ with
      | isTrue hv =>
        match Json.decEqFields xs ys with
        | isTrue ht => isTrue (by rw [hk, hv, ht])
        | isFalse ht => isFalse (by intro hc; cases hc; exact ht rfl)
      | isFalse hv => isFalse (by intro hc; cases hc; exact hv rfl)
    else isFalse (by intro hc; cases hc; exact hk rfl)

end

instance : DecidableEq Json := Json.decEq

/-- First-match lookup in an association list (`m[k]` on a Go map). -/
def mapLookup (k : String) : List (String × Json) → Option Json
  | [] => none
  | (k', v) :: rest => if k' = k then some v else mapLookup k rest

/-- Go map assignment `m[k] = v`: replace the existing binding, else append. -/
def mapInsert (m : List (String × Json)) (k : String) (v : Json) :
    List (String × Json) :=
  match m with
  | [] => [(k, v)]
  | (k', v') :: rest =>
    if k' = k then (k, v) :: rest else (k', v') :: mapInsert rest k v

/-- Go `delete(m, k)`. -/
def mapErase (k : String) : List (String × Json) → List (String × Json)
  | [] => []
  | (k', v) :: rest => if k' = k then rest else (k', v) :: mapErase k rest

/-- Keys of an association list. -/
def mapKeys (m : List (String × Json)) : List String :=
  m.map Prod.fst

@[simp] theorem mapKeys_nil : mapKeys [] = [] := rfl

@[simp] theorem mapKeys_cons (k : String) (v : Json)
    (rest : List (String × Json)) :
    mapKeys ((k, v) :: rest) = k :: mapKeys rest := rfl

@[simp] theorem mapKeys_append (a b : List (String × Json)) :
    mapKeys (a ++ b) = mapKeys a ++ mapKeys b := by
  simp [mapKeys]

/-- Building a Go map from a field list by repeated assignment
(duplicate keys: the later one wins, as in Go's JSON decoding). -/
def mapFromList (l : List (String × Json)) : List (String × Json) :=
  l.foldl (fun acc kv => mapInsert acc kv.1 kv.2) []

@[simp] theorem mapLookup_nil (k : String) : mapLookup k [] = none := rfl

@[simp] theorem mapLookup_cons (k k' : String) (v : Json)
    (rest : List (String × Json)) :
    mapLookup k ((k', v) :: rest) =
      if k' = k then some v else mapLookup k rest := rfl

theorem mapLookup_mapInsert (m : List (String × Json)) (k k' : String)
    (v : Json) :
    mapLookup k' (mapInsert m k v) =
      if k = k' then some v else mapLookup k' m := by
  induction m with
  | nil => simp [mapInsert]
  | cons hd tl ih =>
    obtain ⟨k₀, v₀⟩ := hd
    by_cases h₀ : k₀ = k
    · subst h₀
      by_cases h₁ : k₀ = k' <;> simp [mapInsert, h₁]
    · by_cases h₁ : k₀ = k'
      · have hne : ¬(k = k') := fun h => h₀ (h₁.trans h.symm)
        have hne' : ¬(k' = k) := fun h => hne h.symm
        simp [mapInsert, h₀, h₁, hne, hne']
      · simp [mapInsert, h₀, h₁, ih]

theorem mapLookup_mapErase_ne (m : List (String × Json)) (k k' : String)
    (h : k ≠ k') :
    mapLookup k' (mapErase k m) = mapLookup k' m := by
  induction m with
  | nil => rfl
  | cons hd tl ih =>
    obtain ⟨k₀, v₀⟩ := hd
    by_cases h₀ : k₀ = k
    · have hne : ¬(k₀ = k') := fun e => h (h₀ ▸ e)
      simp [mapErase, h₀, hne, h]
    · by_cases h₁ : k₀ = k'
      · have hne' : ¬(k' = k) := fun e => h₀ (h₁.symm ▸ e)
        simp [mapErase, h₀, h₁, hne']
      · simp [mapErase, h₀, h₁, ih]

/-- Inserting a fresh key appends it. -/
theorem mapInsert_fresh (m : List (String × Json)) (k : String) (v : Json)
    (h : k ∉ mapKeys m) :
    mapInsert m k v = m ++ [(k, v)] := by
  induction m with
  | nil => rfl
  | cons hd tl ih =>
    obtain ⟨k₀, v₀⟩ := hd
    have hne : ¬(k₀ = k) := by
      intro he; exact h (by simp [mapKeys, he])
    have h' : k ∉ mapKeys tl := by
      intro he; exact h (by simp [mapKeys]; exact Or.inr (by simpa [mapKeys] using he))
    simp [mapInsert, hne, ih h']

/-- On lists without duplicate keys, `mapFromList` is the identity. -/
theorem mapFromList_nodup (l : List (String × Json))
    (h : (mapKeys l).Nodup) : mapFromList l = l := by
  suffices hgen : ∀ acc : List (String × Json),
      (∀ kv ∈ l, kv.1 ∉ mapKeys acc) → (mapKeys l).Nodup →
      l.foldl (fun acc kv => mapInsert acc kv.1 kv.2) acc = acc ++ l by
    simpa using hgen [] (by simp [mapKeys]) h
  clear h
  induction l with
  | nil => intro acc _ _; simp
  | cons hd tl ih =>
    intro acc hfresh hnd
    obtain ⟨k₀, v₀⟩ := hd
    rw [mapKeys_cons] at hnd
    obtain ⟨hhead, hndtl⟩ := List.nodup_cons.mp hnd
    have hk₀ : k₀ ∉ mapKeys acc := hfresh (k₀, v₀) (by simp)
    have hfresh' : ∀ kv ∈ tl, kv.1 ∉ mapKeys (acc ++ [(k₀, v₀)]) := by
      intro kv hkv
      rw [mapKeys_append]
      intro hmem
      rcases List.mem_append.mp hmem with hacc | hone
      · exact hfresh kv (List.mem_cons_of_mem _ hkv) hacc
      · have hk : kv.1 = k₀ := by simpa [mapKeys] using hone
        exact hhead (hk ▸ List.mem_map_of_mem Prod.fst hkv)
    simp only [List.foldl_cons]
    rw [mapInsert_fresh acc k₀ v₀ hk₀]
    have := ih (acc ++ [(k₀, v₀)]) hfresh' hndtl
    simpa using this

/-! ## `MaskSensitiveArgs` (internal/mcp security helpers) -/

/-- The `--env KEY=VALUE` branch of `MaskSensitiveArgs`, acting on the token
after a `--env`-prefixed token: `strings.SplitN(tok, "=", 2)`, and when the
key part is sensitive the value is replaced by `maskValue` of it. -/
def envMaskNext (tok : String) : String :=
  match splitEq2 tok with
  | some (k, v) => if isSensitiveKey k then k ++ "=" ++ maskValue v else tok
  | none => tok

/-- The fused `-eKEY=VALUE` branch of `MaskSensitiveArgs`, acting on the
current token itself: fires when the token starts with `-e` and contains
`=`; the key is the part before the first `=` with the `-e` stripped. -/
def eFusedMask (tok : String) : String :=
  if strHasPfx tok "-e" && strContains tok "=" then
    match splitEq2 tok with
    | some (p₀, v) =>
      if isSensitiveKey (strTrimPfx p₀ "-e") then p₀ ++ "=" ++ maskValue v
      else tok
    | none => tok
  else tok

/-- Walk of the Go loop in `MaskSensitiveArgs` from the current token `x`
(which has already received any `--env` rewrite from its predecessor):
the fused `-e` branch is applied to `x`, and when `x` has prefix `--env`
the `--env` rewrite is propagated to the next token before recursing. -/
def maskArgsGo (x : String) : List String → List String
  | [] => [eFusedMask x]
  | y :: rest =>
    eFusedMask x ::
      maskArgsGo (if strHasPfx x "--env" then envMaskNext y else y) rest

/-- Go: `MaskSensitiveArgs`.  The Go loop walks the copied slice left to
right; at index `i` it first rewrites `masked[i+1]` when `masked[i]` has
prefix `--env`, then rewrites `masked[i]` itself through the fused `-e`
branch.  `maskArgsGo` performs the same walk. -/
def MaskSensitiveArgs : List String → List String
  | [] => []
  | x :: rest => maskArgsGo x rest

/-- `listBreakAt` decomposes its input around the first occurrence. -/
theorem listBreakAt_eq (c : Char) (l p q : List Char)
    (h : listBreakAt c l = some (p, q)) : l = p ++ c :: q := by
  induction l generalizing p q with
  | nil => simp [listBreakAt] at h
  | cons x xs ih =>
    unfold listBreakAt at h
    by_cases hx : (x == c) = true
    · have hxc : x = c := by simpa [beq_iff_eq] using hx
      rw [if_pos hx] at h
      have hpq : (([] : List Char), xs) = (p, q) := Option.some.inj h
      injection hpq with h1 h2
      simp [← h1, ← h2, hxc]
    · rw [if_neg hx] at h
      cases hrec : listBreakAt c xs with
      | none => rw [hrec] at h; simp at h
      | some pair =>
        obtain ⟨pr1, pr2⟩ := pair
        rw [hrec] at h
        have hpq : (x :: pr1, pr2) = (p, q) := Option.some.inj (by simpa using h)
        injection hpq with h1 h2
        rw [← h1, ← h2]
        simp [ih pr1 pr2 hrec]

/-- `splitEq2` decomposes the token around its first `=`. -/
theorem splitEq2_eq (tok k v : String) (h : splitEq2 tok = some (k, v)) :
    tok.data = k.data ++ '=' :: v.data := by
  unfold splitEq2 at h
  cases hb : listBreakAt '=' tok.data with
  | none => rw [hb] at h; simp at h
  | some p =>
    rw [hb] at h
    simp at h
    obtain ⟨h1, h2⟩ := h
    have hk : k.data = p.1 := by rw [← h1]
    have hv : v.data = p.2 := by rw [← h2]
    rw [hk, hv]
    exact listBreakAt_eq '=' tok.data p.1 p.2 (by simpa using hb)

/-- Rewriting the value part of a `k=v` token does not change whether the
token has a given `=`-free prefix. -/
theorem listIsPfx_append_eq (p k s t : List Char) (hp : '=' ∉ p) :
    listIsPfx p (k ++ '=' :: s) = listIsPfx p (k ++ '=' :: t) := by
  induction p generalizing k with
  | nil => rfl
  | cons c cs ih =>
    match k with
    | [] =>
      have hc : (c == '=') = false := by
        simp only [List.mem_cons] at hp
        simp [beq_iff_eq]
        exact fun h => hp (Or.inl h.symm)
      simp [listIsPfx, hc]
    | a :: k' =>
      have hp' : '=' ∉ cs := fun h => hp (List.mem_cons_of_mem _ h)
      simp only [List.cons_append, listIsPfx, List.append_eq]
      rw [ih k' hp']

theorem envMaskNext_preserves_envFlag (tok : String) :
    strHasPfx (envMaskNext tok) "--env" = strHasPfx tok "--env" := by
  unfold envMaskNext
  cases hsp : splitEq2 tok with
  | none => rfl
  | some kv =>
    obtain ⟨k, v⟩ := kv
    by_cases hs : isSensitiveKey k
    · have hdecomp : tok.data = k.data ++ '=' :: v.data := splitEq2_eq tok k v hsp
      have hmasked :
          (k ++ "=" ++ maskValue v).data = k.data ++ '=' :: (maskValue v).data := by
        simp [String.data_append]
      have hnomem : '=' ∉ ("--env" : String).data := by decide
      simp only [hs, if_true, strHasPfx, hmasked, hdecomp]
      exact listIsPfx_append_eq _ _ _ _ hnomem
    · simp [hs]

/-- Whether the input token at `i - 1` (if any) starts with `--env`. -/
def prevEnvFlag (args : List String) : Nat → Bool
  | 0 => false
  | j + 1 => ((args.get? j).map (fun p => strHasPfx p "--env")).getD false

/-- The `--env` flag seen by `maskArgsGo x tl` for the element of `tl`
at index `j`: the predecessor is `x` when `j = 0` and `tl[j-1]` otherwise. -/
def flagFrom (x : String) (tl : List String) : Nat → Bool
  | 0 => strHasPfx x "--env"
  | j + 1 => ((tl.get? j).map (fun p => strHasPfx p "--env")).getD false

theorem maskArgsGo_get?_zero (tl : List String) (x : String) :
    (maskArgsGo x tl).get? 0 = some (eFusedMask x) := by
  cases tl <;> rfl

theorem maskArgsGo_get?_succ (tl : List String) (x : String) (j : Nat) :
    (maskArgsGo x tl).get? (j + 1) =
      (tl.get? j).map (fun t =>
        eFusedMask (if flagFrom x tl j then envMaskNext t else t)) := by
  induction tl generalizing x j with
  | nil => simp [maskArgsGo]
  | cons y rest ih =>
    have hstep : (maskArgsGo x (y :: rest)).get? (j + 1) =
        (maskArgsGo (if strHasPfx x "--env" then envMaskNext y else y)
          rest).get? j := rfl
    match j with
    | 0 =>
      rw [hstep, maskArgsGo_get?_zero]
      simp [flagFrom]
    | j' + 1 =>
      rw [hstep, ih _ j']
      match j' with
      | 0 =>
        by_cases hx : strHasPfx x "--env" = true
        · simp [hx, flagFrom, envMaskNext_preserves_envFlag]
        · simp [hx, flagFrom]
      | m + 1 => simp [flagFrom]

/-- Pointwise description of `MaskSensitiveArgs`: the token at index `i`
of the output is the input token at `i`, first rewritten by the
`--env`-next-token branch when the input token at `i - 1` starts with
`--env`, then rewritten by the fused `-e` branch. -/
theorem maskSensitiveArgs_pointwise (args : List String) (i : Nat) :
    (MaskSensitiveArgs args).get? i =
      (args.get? i).map (fun t =>
        eFusedMask (if prevEnvFlag args i then envMaskNext t else t)) := by
  match args with
  | [] => cases i <;> rfl
  | x :: tl =>
    match i with
    | 0 =>
      rw [show MaskSensitiveArgs (x :: tl) = maskArgsGo x tl from rfl,
        maskArgsGo_get?_zero]
      simp [prevEnvFlag]
    | j + 1 =>
      have hflag : flagFrom x tl j = prevEnvFlag (x :: tl) (j + 1) := by
        cases j <;> rfl
      rw [show MaskSensitiveArgs (x :: tl) = maskArgsGo x tl from rfl,
        maskArgsGo_get?_succ, hflag]
      rfl

/-! ## JSON masking (`MaskSensitiveJSON`, `MaskSensitiveJSONPretty`) -/

/-- Go: `envVarMappings` — alias table for well-known variables. -/
def envVarMappings : List (String × String) :=
  [("GITHUB_PERSONAL_ACCESS_TOKEN", "GITHUB_TOKEN"),
   ("GITHUB_TOKEN", "GITHUB_TOKEN"),
   ("ANTHROPIC_API_KEY", "ANTHROPIC_KEY"),
   ("OPENAI_API_KEY", "OPENAI_KEY"),
   ("GROQ_API_KEY", "GROQ_KEY"),
   ("GOOGLE_API_KEY", "GOOGLE_KEY"),
   ("AWS_ACCESS_KEY_ID", "AWS_KEY_ID"),
   ("AWS_SECRET_ACCESS_KEY", "AWS_SECRET_KEY")]

/-- Assoc-list lookup for string tables. -/
def lookupStr (k : String) : List (String × String) → Option String
  | [] => none
  | (k', v) :: rest => if k' = k then some v else lookupStr k rest

/-- Go: `getBashVariable` — `$` plus the alias for known keys, `$` plus the
key itself otherwise. -/
def getBashVariable (key : String) : String :=
  match lookupStr key envVarMappings with
  | some bashVar => "$" ++ bashVar
  | none => "$" ++ key

/-- Outcome of running a Go function that can return an error value or
panic (the unchecked type assertion in `MaskSensitiveJSON`). -/
inductive GoResult (α : Type) where
  | ok (val : α) : GoResult α
  | err : GoResult α
  | panic : GoResult α
  deriving DecidableEq

/-- The `env`-masking loop of `MaskSensitiveJSON`: sensitive keys get their
value replaced through `maskValue` after the unchecked assertion
`value.(string)`, which panics on a non-string value; non-sensitive values
pass through. -/
def maskEnvGo : List (String × Json) → GoResult (List (String × Json))
  | [] => .ok []
  | (k, v) :: rest =>
    if isSensitiveKey k then
      match v with
      | .str s =>
        match maskEnvGo rest with
        | .ok r => .ok ((k, Json.str (maskValue s)) :: r)
        | .err => .err
        | .panic => .panic
      | .null => .panic
      | .bool _ => .panic
      | .num _ => .panic
      | .arr _ => .panic
      | .obj _ => .panic
    else
      match maskEnvGo rest with
      | .ok r => .ok ((k, v) :: r)
      | .err => .err
      | .panic => .panic

/-- Go: `MaskSensitiveJSON`.  The input models `json.Unmarshal` of the raw
bytes into `map[string]interface{}`: `none` stands for bytes that do not
parse, `some j` for bytes parsing to the document `j`.  Unmarshalling a
JSON `null` leaves the map `nil` without error and re-marshalling the
`nil` map produces `null` again; any other non-object document is a type
error.  A present non-object `env` member is skipped by the comma-ok
assertion. -/
def MaskSensitiveJSON : Option Json → GoResult Json
  | none => .err
  | some Json.null => .ok Json.null
  | some (Json.obj fields) =>
    match mapLookup "env" fields with
    | some (Json.obj env) =>
      match maskEnvGo env with
      | .ok env' => .ok (Json.obj (mapInsert fields "env" (Json.obj env')))
      | .err => .err
      | .panic => .panic
    | _ => .ok (Json.obj fields)
  | some (Json.bool _) => .err
  | some (Json.num _) => .err
  | some (Json.str _) => .err
  | some (Json.arr _) => .err

/-! ## Captured-output masking (`maskSensitiveOutput`, cmd/start.go) -/

/-- `strings.IndexAny(s, "=:")`. -/
def indexAnyEqColon : List Char → Option Nat
  | [] => none
  | c :: rest =>
    if c == '=' || c == ':' then some 0
    else (indexAnyEqColon rest).map (· + 1)

/-- One line of `maskSensitiveOutput`: try each sensitive pattern in order
against the upper-cased line; at the first pattern that occurs and is
followed (from its first occurrence) by a `=` or `:` separator, truncate
after the separator and append `" ***"`. -/
def maskLineGo (line : String) : List String → String
  | [] => line
  | pattern :: rest =>
    match listIndexSub (strToUpper line).data pattern.data with
    | some patternIdx =>
      match indexAnyEqColon (line.data.drop patternIdx) with
      | some idx => ⟨line.data.take (patternIdx + idx + 1)⟩ ++ " ***"
      | none => maskLineGo line rest
    | none => maskLineGo line rest

/-- `strings.Split(s, "\n")` at the character-list level. -/
def splitOnNl : List Char → List (List Char)
  | [] => [[]]
  | c :: rest =>
    if c == '\n' then [] :: splitOnNl rest
    else
      match splitOnNl rest with
      | [] => [[c]]
      | h :: t => (c :: h) :: t

/-- `strings.Join(lines, "\n")` at the character-list level. -/
def joinNl : List (List Char) → List Char
  | [] => []
  | [l] => l
  | l :: rest => l ++ '\n' :: joinNl rest

/-- Go: `maskSensitiveOutput` (cmd/start.go) — masks each line through the
pattern table and re-joins with newlines. -/
def maskSensitiveOutput (output : String) : String :=
  ⟨joinNl ((splitOnNl output.data).map
    (fun l => (maskLineGo ⟨l⟩ sensitivePatterns).data))⟩

/-! ## Go `encoding/json` rendering

`json.Marshal` on a `map[string]interface{}` emits object members sorted
by key, escapes `"` `\\` control characters and (HTML escaping, on by
default) `<` `>` `&`; `json.MarshalIndent` additionally pretty-prints.
Braces are written `\x7b`/`\x7d` in the string literals below. -/

/-- One brace character each, used when building JSON text. -/
def openBrace : String := "\x7b"

def closeBrace : String := "\x7d"

def hexDigit (n : Nat) : Char :=
  if n < 10 then Char.ofNat (48 + n) else Char.ofNat (87 + n)

/-- Go `encoding/json` string escaping for one character. -/
def escChar (c : Char) : List Char :=
  if c = '"' then ['\\', '"']
  else if c = '\\' then ['\\', '\\']
  else if c = '\n' then ['\\', 'n']
  else if c = '\r' then ['\\', 'r']
  else if c = '\t' then ['\\', 't']
  else if c = '<' then ['\\', 'u', '0', '0', '3', 'c']
  else if c = '>' then ['\\', 'u', '0', '0', '3', 'e']
  else if c = '&' then ['\\', 'u', '0', '0', '2', '6']
  else if c.toNat < 32 then
    ['\\', 'u', '0', '0', hexDigit (c.toNat / 16), hexDigit (c.toNat % 16)]
  else [c]

/-- JSON string literal for `s`. -/
def quoteStr (s : String) : String :=
  "\"" ++ (⟨(s.data.map escChar).flatten⟩ : String) ++ "\""

def joinSep (sep : String) : List String → String
  | [] => ""
  | [s] => s
  | s :: rest => s ++ sep ++ joinSep sep rest

/-- Byte-order (here: code-point order) comparison used by Go when sorting
map keys for marshalling. -/
def listCharLT : List Char → List Char → Bool
  | [], [] => false
  | [], _ :: _ => true
  | _ :: _, [] => false
  | a :: as, b :: bs =>
    if a.toNat < b.toNat then true
    else if b.toNat < a.toNat then false
    else listCharLT as bs

def strLTb (a b : String) : Bool := listCharLT a.data b.data

/-- Insertion sort of rendered members by key (ascending). -/
def insertPair (x : String × String) : List (String × String) → List (String × String)
  | [] => [x]
  | y :: rest => if strLTb y.1 x.1 then y :: insertPair x rest else x :: y :: rest

def sortPairsStr (l : List (String × String)) : List (String × String) :=
  l.foldr insertPair []

/-- `strings.Repeat indent depth`. -/
def repeatStr (s : String) : Nat → String
  | 0 => ""
  | n + 1 => s ++ repeatStr s n

mutual

/-- Go: `json.Marshal` of a decoded document (compact). -/
def renderJson : Json → String
  | .null => "null"
  | .bool b => cond b "true" "false"
  | .num n => toString n
  | .str s => quoteStr s
  | .arr xs => "[" ++ joinSep "," (renderJsonList xs) ++ "]"
  | .obj fs =>
    openBrace ++
      joinSep ","
        ((sortPairsStr (renderJsonFields fs)).map
          (fun p => quoteStr p.1 ++ ":" ++ p.2)) ++
      closeBrace

def renderJsonList : List Json → List String
  | [] => []
  | x :: xs => renderJson x :: renderJsonList xs

def renderJsonFields : List (String × Json) → List (String × String)
  | [] => []
  | (k, v) :: rest => (k, renderJson v) :: renderJsonFields rest

end

mutual

/-- Go: `json.MarshalIndent` of a decoded document with empty prefix and
indent unit `indent`; `depth` is the current nesting depth. -/
def renderJsonInd (indent : String) (depth : Nat) : Json → String
  | .null => "null"
  | .bool b => cond b "true" "false"
  | .num n => toString n
  | .str s => quoteStr s
  | .arr [] => "[]"
  | .arr (x :: xs) =>
    "[\n" ++
      joinSep ",\n"
        ((renderJsonIndList indent (depth + 1) (x :: xs)).map
          (fun r => repeatStr indent (depth + 1) ++ r)) ++
      "\n" ++ repeatStr indent depth ++ "]"
  | .obj [] => openBrace ++ closeBrace
  | .obj (f :: fs) =>
    openBrace ++ "\n" ++
      joinSep ",\n"
        ((sortPairsStr (renderJsonIndFields indent (depth + 1) (f :: fs))).map
          (fun p => repeatStr indent (depth + 1) ++ quoteStr p.1 ++ ": " ++ p.2)) ++
      "\n" ++ repeatStr indent depth ++ closeBrace

def renderJsonIndList (indent : String) (depth : Nat) : List Json → List String
  | [] => []
  | x :: xs => renderJsonInd indent depth x :: renderJsonIndList indent depth xs

def renderJsonIndFields (indent : String) (depth : Nat) :
    List (String × Json) → List (String × String)
  | [] => []
  | (k, v) :: rest =>
    (k, renderJsonInd indent depth v) :: renderJsonIndFields indent depth rest

end

/-! ## The pretty-masking pipeline (`MaskSensitiveJSONPretty`) -/

/-- `strings.ReplaceAll` on character lists (non-overlapping, left to
right).  The `fuel` argument, initialised to the input length, only makes
the recursion structural; it never runs out because each step consumes at
least one character. -/
def replaceAllAux (pat rep : List Char) : Nat → List Char → List Char
  | 0, l => l
  | fuel + 1, l =>
    match l with
    | [] => []
    | c :: rest =>
      if listIsPfx pat l && !pat.isEmpty then
        rep ++ replaceAllAux pat rep fuel (l.drop pat.length)
      else c :: replaceAllAux pat rep fuel rest

/-- Go: `strings.ReplaceAll s pat rep`. -/
def strReplaceAll (s pat rep : String) : String :=
  ⟨replaceAllAux pat.data rep.data s.data.length s.data⟩

/-- The alias loop of `MaskSensitiveJSONPretty`: for each alias-table key,
replace the quoted bash variable by its unquoted form.  (Go iterates the
map in unspecified order; the table's textual order is used here — the
replacements commute in the inputs considered.) -/
def aliasPass (s : String) : String :=
  envVarMappings.foldl
    (fun acc kv =>
      strReplaceAll acc ("\"" ++ getBashVariable kv.1 ++ "\"") (getBashVariable kv.1))
    s

/-- Character class `[A-Z0-9_]` of the quote-stripping regex. -/
def isVarChar (c : Char) : Bool :=
  (65 ≤ c.toNat && c.toNat ≤ 90) || c = '_' || (48 ≤ c.toNat && c.toNat ≤ 57)

/-- Character class `[A-Z_]` required of the first variable character. -/
def isVarStart (c : Char) : Bool :=
  (65 ≤ c.toNat && c.toNat ≤ 90) || c = '_'

/-- The regex pass `"\$([A-Z_]+[A-Z0-9_]*)" → $1` of
`MaskSensitiveJSONPretty`: strip the quotes around every quoted bash
variable whose name matches `[A-Z_][A-Z0-9_]*`, scanning left to right
with maximal munch (the character classes exclude `"` so RE2 backtracking
cannot produce any other match).  Fuel as in `replaceAllAux`. -/
def stripVarQuotesAux : Nat → List Char → List Char
  | 0, l => l
  | fuel + 1, l =>
    match l with
    | [] => []
    | c :: rest =>
      if c = '"' then
        match rest with
        | '$' :: n0 :: rest2 =>
          if isVarStart n0 then
            match rest2.dropWhile isVarChar with
            | '"' :: rest3 =>
              '$' :: n0 :: rest2.takeWhile isVarChar ++ stripVarQuotesAux fuel rest3
            | _ => c :: stripVarQuotesAux fuel rest
          else c :: stripVarQuotesAux fuel rest
        | _ => c :: stripVarQuotesAux fuel rest
      else c :: stripVarQuotesAux fuel rest

def stripVarQuotes (s : String) : String :=
  ⟨stripVarQuotesAux s.data.length s.data⟩

/-- Go: `MaskSensitiveJSONPretty`.  As in `MaskSensitiveJSON` the input
models the parse of the raw bytes — a JSON `null` unmarshals into a `nil`
map without error and pretty-prints back to `null`; sensitive `env`
values are replaced by their bash-variable form (no type assertion here,
so no panic), the document is pretty-printed with the given indent unit,
and the two post-processing passes remove the quotes around bash
variables. -/
def MaskSensitiveJSONPretty (inp : Option Json) (indent : String) : GoResult String :=
  match inp with
  | none => .err
  | some Json.null =>
    .ok (stripVarQuotes (aliasPass (renderJsonInd indent 0 Json.null)))
  | some (Json.obj fields) =>
    let fields' :=
      match mapLookup "env" fields with
      | some (Json.obj env) =>
        mapInsert fields "env" (Json.obj (env.map (fun kv =>
          if isSensitiveKey kv.1 then (kv.1, Json.str (getBashVariable kv.1))
          else kv)))
      | _ => fields
    .ok (stripVarQuotes (aliasPass (renderJsonInd indent 0 (Json.obj fields'))))
  | some (Json.bool _) => .err
  | some (Json.num _) => .err
  | some (Json.str _) => .err
  | some (Json.arr _) => .err

/-! ## Launch specifications and the command builder
(`internal/config`, `internal/mcp/claude_cmd_builder.go`) -/

/-- Go: `config.MCPServer`.  `env` and `extra` are Go maps, modelled as
association lists. -/
structure MCPServer where
  command : String
  args : List String
  env : List (String × String)
  cwd : String
  extra : List (String × Json)
  deriving DecidableEq

/-- The `--env K=V` pairs appended by `buildStartArgs` for each `env`
entry (Go iterates the map; the list order is used here). -/
def envFlags : List (String × String) → List String
  | [] => []
  | (k, v) :: rest => "--env" :: (k ++ "=" ++ v) :: envFlags rest

/-- Go: `buildStartArgs` — `[mcp add name]`, the `--env` pairs, then the
literal `--` separator, the command and its arguments. -/
def buildStartArgs (name : String) (server : MCPServer) : List String :=
  ["mcp", "add", name] ++ envFlags server.env ++
    ["--", server.command] ++ server.args

/-- The JSON object built by `buildStartArgsJSON`: the `Extra` fields
first, then the known fields, `args`, `env` and `cwd` only when
non-empty — later assignments override duplicates. -/
def startServerJson (server : MCPServer) : List (String × Json) :=
  let m := mapFromList server.extra
  let m := mapInsert m "command" (Json.str server.command)
  let m := if server.args.length > 0 then
      mapInsert m "args" (Json.arr (server.args.map Json.str)) else m
  let m := if server.env.length > 0 then
      mapInsert m "env" (Json.obj (server.env.map
        (fun kv => (kv.1, Json.str kv.2)))) else m
  if server.cwd ≠ "" then mapInsert m "cwd" (Json.str server.cwd) else m

/-- Go: `buildStartArgsJSON` — `[mcp add-json name <json>]` with the
marshalled server object. -/
def buildStartArgsJSON (name : String) (server : MCPServer) : List String :=
  ["mcp", "add-json", name, renderJson (Json.obj (startServerJson server))]

/-- The encoding choice made in `StartServer`:
`useAddJSON := len(server.Env) > 0`. -/
def selectStartArgs (name : String) (server : MCPServer) : List String :=
  if server.env.length > 0 then buildStartArgsJSON name server
  else buildStartArgs name server

/-! ## Configuration store (`internal/config/config.go`) -/

/-- Go: `config.Config`. -/
structure Config where
  mcpServers : List (String × MCPServer)
  deriving DecidableEq

/-- The `command` block of `MCPServer.UnmarshalJSON`: if the raw map has
a string `command`, extract it and delete the key. -/
def extractCommand (raw : List (String × Json)) :
    String × List (String × Json) :=
  match mapLookup "command" raw with
  | some (Json.str c) => (c, mapErase "command" raw)
  | _ => ("", raw)

/-- The `args` block of `MCPServer.UnmarshalJSON`: if the raw map has an
array `args`, convert it (non-string elements become `""`) and delete the
key. -/
def extractArgs (raw : List (String × Json)) :
    List String × List (String × Json) :=
  match mapLookup "args" raw with
  | some (Json.arr xs) =>
    (xs.map (fun x => match x with | Json.str s => s | _ => ""),
      mapErase "args" raw)
  | _ => ([], raw)

/-- The `env` block of `MCPServer.UnmarshalJSON`: if the raw map has an
object `env`, keep its string-valued members and delete the key. -/
def extractEnv (raw : List (String × Json)) :
    List (String × String) × List (String × Json) :=
  match mapLookup "env" raw with
  | some (Json.obj e) =>
    ((mapFromList e).filterMap (fun kv =>
       match kv.2 with | Json.str s => some (kv.1, s) | _ => none),
      mapErase "env" raw)
  | _ => ([], raw)

/-- The `cwd` block of `MCPServer.UnmarshalJSON`. -/
def extractCwd (raw : List (String × Json)) :
    String × List (String × Json) :=
  match mapLookup "cwd" raw with
  | some (Json.str c) => (c, mapErase "cwd" raw)
  | _ => ("", raw)

/-- Go: `MCPServer.UnmarshalJSON`.  The argument is the parsed JSON value
of the member (`json.Unmarshal` of the raw bytes into
`map[string]interface{}`, which fails unless the value is an object or
`null`).  The four known-key blocks run in order on the raw map; whatever
remains afterwards is `Extra`. -/
def decodeMCPServer : Json → Option MCPServer
  | Json.null => some ⟨"", [], [], "", []⟩
  | Json.obj fields =>
    let s₁ := extractCommand (mapFromList fields)
    let s₂ := extractArgs s₁.2
    let s₃ := extractEnv s₂.2
    let s₄ := extractCwd s₃.2
    some ⟨s₁.1, s₂.1, s₃.1, s₄.1, s₄.2⟩
  | _ => none

/-- Go: `MCPServer.MarshalJSON` — start from `Extra`, then the known
fields override duplicates; `args`, `env`, `cwd` only when non-empty. -/
def marshalMCPServer (s : MCPServer) : List (String × Json) :=
  let r := mapFromList s.extra
  let r := mapInsert r "command" (Json.str s.command)
  let r := if s.args.length > 0 then
      mapInsert r "args" (Json.arr (s.args.map Json.str)) else r
  let r := if s.env.length > 0 then
      mapInsert r "env" (Json.obj (s.env.map
        (fun kv => (kv.1, Json.str kv.2)))) else r
  if s.cwd ≠ "" then mapInsert r "cwd" (Json.str s.cwd) else r

/-- Member-wise decoding of the `mcpServers` object. -/
def decodeServers : List (String × Json) → Option (List (String × MCPServer))
  | [] => some []
  | (k, v) :: rest =>
    match decodeMCPServer v, decodeServers rest with
    | some s, some r => some ((k, s) :: r)
    | _, _ => none

/-- `json.Unmarshal` of the file contents into `config.Config`: the top
level must be an object; an absent or `null` `mcpServers` member yields a
nil map (initialised to empty by `Load`); a present non-object,
non-`null` member is a type error; members decode through
`MCPServer.UnmarshalJSON`. -/
def decodeConfig : Json → Option Config
  | Json.null => some ⟨[]⟩
  | Json.obj fields =>
    (match mapLookup "mcpServers" (mapFromList fields) with
     | none => some ⟨[]⟩
     | some Json.null => some ⟨[]⟩
     | some (Json.obj ms) =>
       (match decodeServers (mapFromList ms) with
        | some l => some ⟨l⟩
        | none => none)
     | some _ => none)
  | Json.bool _ => none
  | Json.num _ => none
  | Json.str _ => none
  | Json.arr _ => none

/-- Result of `config.Load`: a configuration or a read error. -/
inductive LoadResult where
  | ok (cfg : Config) : LoadResult
  | readError : LoadResult
  deriving DecidableEq

/-- Go: `config.Load` (internal/config, current version).  The
configuration file is modelled as `none` when absent and `some p` when
present, where `p : Option Json` is its parse result (`none` for invalid
JSON).  `Load` returns the decode result and the unchanged file state:
it performs no write (`ensureConfigDir` only creates the directory). -/
def LoadConfig (fs : Option (Option Json)) :
    LoadResult × Option (Option Json) :=
  match fs with
  | none => (.ok ⟨[]⟩, fs)
  | some none => (.readError, fs)
  | some (some j) =>
    match decodeConfig j with
    | some cfg => (.ok cfg, fs)
    | none => (.readError, fs)

/-! ## Post-launch verification loop (`VerifyServerStartedVerbose`) -/

/-- The fixed settle delay (milliseconds) slept before the first poll. -/
def settleDelayMs : Nat := 500

/-- The line scan of one poll of `claude mcp list` output: lines are
visited in order; a line containing `name + ":"` decides the poll when it
also carries a marker — `✗`/`Failed` (checked first) gives a confirmed
failure, `✓`/`Connected` a confirmed success; all other lines are
skipped. -/
def scanPoll (name : String) : List String → Option Bool
  | [] => none
  | line :: rest =>
    if strContains line (name ++ ":") then
      if strContains line "✗" || strContains line "Failed" then some false
      else if strContains line "✓" || strContains line "Connected" then some true
      else scanPoll name rest
    else scanPoll name rest

/-- Outcome of the verification loop: whether success was reported, how
many polls ran, and the seconds slept between polls. -/
structure VerifyResult where
  success : Bool
  pollsUsed : Nat
  sleepsSec : List Nat
  deriving DecidableEq

/-- Go: `VerifyServerStartedVerbose` — up to 3 polls of the external
tool's list output (given here as the lines each poll would return), with
`time.Sleep((attempt+1) seconds)` after an undecided poll except the
last.  A decided poll returns immediately; exhausting all attempts is a
failure. -/
def VerifyServerStarted (name : String) (poll₁ poll₂ poll₃ : List String) :
    VerifyResult :=
  match scanPoll name poll₁ with
  | some b => ⟨b, 1, []⟩
  | none =>
    match scanPoll name poll₂ with
    | some b => ⟨b, 2, [1]⟩
    | none =>
      match scanPoll name poll₃ with
      | some b => ⟨b, 3, [1, 2]⟩
      | none => ⟨false, 3, [1, 2]⟩

/-! ## Bulk stop (`StopAllServers`, `IsRunning`) -/

/-- Go: `StopAllServers` — walks the configured names and, for each that
`IsRunning` reports registered, calls `StopServer` (whose own
`IsRunning` re-check sees the same oracle) and collects its error.
`isRunning name` models the exit status of `claude mcp get name`,
`stopOK name` that of `claude mcp remove name`.  Returns the names for
which `claude mcp remove` was invoked and the names whose stop failed. -/
def StopAllServers (isRunning stopOK : String → Bool) :
    List String → List String × List String
  | [] => ([], [])
  | n :: rest =>
    let tail := StopAllServers isRunning stopOK rest
    if isRunning n then
      (n :: tail.1, if stopOK n then tail.2 else n :: tail.2)
    else tail

/-- The aggregate result of `StopAllServers`: an error is returned iff
the collected error list is non-empty. -/
def stopAllHasError (isRunning stopOK : String → Bool)
    (names : List String) : Bool :=
  (StopAllServers isRunning stopOK names).2 ≠ []

/-! ## Supporting lemmas -/

theorem mapLookup_eq_none_iff (k : String) (m : List (String × Json)) :
    mapLookup k m = none ↔ k ∉ mapKeys m := by
  induction m with
  | nil => simp
  | cons hd tl ih =>
    obtain ⟨k₀, v₀⟩ := hd
    by_cases h₀ : k₀ = k
    · subst h₀; simp
    · rw [mapLookup_cons, if_neg h₀, mapKeys_cons]
      simp only [List.mem_cons, not_or]
      constructor
      · intro h
        exact ⟨fun e => h₀ e.symm, ih.mp h⟩
      · intro h
        exact ih.mpr h.2

theorem mapKeys_mapErase_sublist (k : String) (m : List (String × Json)) :
    (mapKeys (mapErase k m)).Sublist (mapKeys m) := by
  induction m with
  | nil => simp [mapErase]
  | cons hd tl ih =>
    obtain ⟨k₀, v₀⟩ := hd
    by_cases h₀ : k₀ = k
    · simp [mapErase, h₀]
    · simpa [mapErase, h₀] using ih.cons₂ k₀

theorem nodup_mapKeys_mapErase (k : String) (m : List (String × Json))
    (h : (mapKeys m).Nodup) : (mapKeys (mapErase k m)).Nodup :=
  h.sublist (mapKeys_mapErase_sublist k m)

theorem mapLookup_mapErase_self (k : String) (m : List (String × Json))
    (h : (mapKeys m).Nodup) : mapLookup k (mapErase k m) = none := by
  induction m with
  | nil => simp [mapErase]
  | cons hd tl ih =>
    obtain ⟨k₀, v₀⟩ := hd
    rw [mapKeys_cons] at h
    obtain ⟨hhead, htl⟩ := List.nodup_cons.mp h
    by_cases h₀ : k₀ = k
    · subst h₀
      simp only [mapErase, if_pos rfl]
      exact (mapLookup_eq_none_iff k₀ tl).mpr hhead
    · simp [mapErase, h₀, ih htl]

/-- `mapLookup` through `List.filter` on a duplicate-free map: the looked-up
binding survives exactly when the predicate keeps it. -/
theorem mapLookup_filter (p : String × Json → Bool) (m : List (String × Json))
    (k : String) (h : (mapKeys m).Nodup) :
    mapLookup k (m.filter p) =
      match mapLookup k m with
      | some v => if p (k, v) then some v else none
      | none => none := by
  induction m with
  | nil => simp
  | cons hd tl ih =>
    obtain ⟨k₀, v₀⟩ := hd
    rw [mapKeys_cons] at h
    obtain ⟨hhead, htl⟩ := List.nodup_cons.mp h
    by_cases h₀ : k₀ = k
    · subst h₀
      have hnone : mapLookup k₀ tl = none := (mapLookup_eq_none_iff k₀ tl).mpr hhead
      by_cases hp : p (k₀, v₀) = true
      · simp [List.filter, hp]
      · have hfilter : mapLookup k₀ (tl.filter p) = none := by
          rw [ih htl, hnone]
        simp only [List.filter_cons]
        rw [if_neg (by simp [hp])]
        simp [hfilter, hp]
    · by_cases hp : p (k₀, v₀) = true
      · simp [List.filter, hp, h₀, ih htl]
      · simp only [List.filter_cons]
        rw [if_neg (by simp [hp])]
        simp [h₀, ih htl]

/-- Length preservation for the masking walk. -/
theorem maskArgsGo_length (tl : List String) (x : String) :
    (maskArgsGo x tl).length = tl.length + 1 := by
  induction tl generalizing x with
  | nil => rfl
  | cons y rest ih => simp [maskArgsGo, ih]

theorem maskSensitiveArgs_length (args : List String) :
    (MaskSensitiveArgs args).length = args.length := by
  cases args with
  | nil => rfl
  | cons x tl => simp [MaskSensitiveArgs, maskArgsGo_length]

/-- `listContainsSub` finds the pattern at some offset. -/
theorem listContainsSub_iff (l p : List Char) :
    listContainsSub l p = true ↔ ∃ i, listIsPfx p (l.drop i) = true := by
  induction l with
  | nil =>
    constructor
    · intro h
      rw [listContainsSub] at h
      by_cases hp : listIsPfx p [] = true
      · exact ⟨0, hp⟩
      · simp [hp] at h
    · rintro ⟨i, hi⟩
      rw [listContainsSub]
      simp only [List.drop_nil] at hi
      simp [hi]
  | cons c cs ih =>
    constructor
    · intro h
      rw [listContainsSub] at h
      by_cases hp : listIsPfx p (c :: cs) = true
      · exact ⟨0, hp⟩
      · simp only [hp, if_false] at h
        obtain ⟨i, hi⟩ := ih.mp h
        exact ⟨i + 1, by simpa using hi⟩
    · rintro ⟨i, hi⟩
      rw [listContainsSub]
      by_cases hp : listIsPfx p (c :: cs) = true
      · simp [hp]
      · simp only [hp, if_false]
        match i with
        | 0 => simp at hi; exact absurd hi hp
        | j + 1 => exact ih.mpr ⟨j, by simpa using hi⟩

/-- A prefix of a prefix pattern is also a prefix. -/
theorem listIsPfx_of_append (a b l : List Char)
    (h : listIsPfx (a ++ b) l = true) : listIsPfx a l = true := by
  induction a generalizing l with
  | nil => rfl
  | cons c cs ih =>
    match l with
    | [] => simp [listIsPfx] at h
    | d :: ds =>
      simp only [List.cons_append, listIsPfx, Bool.and_eq_true] at h ⊢
      exact ⟨h.1, ih ds h.2⟩

/-- The code's containment test agrees with the spec-style case-insensitive
containment `containsCI`. -/
theorem strContains_toUpper_eq_containsCI (key pat : String) :
    strContains (strToUpper key) pat = containsCI key pat := by
  rw [Bool.eq_iff_iff]
  rw [show strContains (strToUpper key) pat =
    listContainsSub (key.data.map Char.toUpper) pat.data from rfl]
  rw [listContainsSub_iff]
  constructor
  · rintro ⟨i, hi⟩
    rw [containsCI]
    rw [List.any_eq_true]
    by_cases hlen : i ≤ key.data.length
    · refine ⟨i, ?_, ?_⟩
      · exact List.mem_range.mpr (by omega)
      · rw [← List.map_drop] at hi
        exact hi
    · refine ⟨key.data.length, ?_, ?_⟩
      · exact List.mem_range.mpr (by omega)
      · have h₁ : key.data.drop key.data.length = [] := by simp
        have h₂ : (key.data.map Char.toUpper).drop i = [] := by
          apply List.drop_eq_nil_of_le
          rw [List.length_map]
          omega
        rw [h₂] at hi
        rw [h₁]
        simpa using hi
  · intro h
    rw [containsCI, List.any_eq_true] at h
    obtain ⟨i, _, hi⟩ := h
    exact ⟨i, by rw [← List.map_drop]; exact hi⟩

/-! ## Claim theorems -/

/-- C3: `isSensitiveKey` is a pure function returning `true` exactly for
keys that contain, case-insensitively, one of the substrings TOKEN, KEY,
SECRET, PASSWORD, PAT, CREDENTIAL, AUTH; in particular it accepts
`API_KEY` and rejects `PORT`, `DEBUG` and `NODE_ENV`. -/
theorem isSensitiveKey_characterisation :
    (∀ key : String,
      isSensitiveKey key = true ↔
        ∃ p ∈ sensitivePatterns, containsCI key p = true) ∧
    isSensitiveKey "API_KEY" = true ∧
    isSensitiveKey "PORT" = false ∧
    isSensitiveKey "DEBUG" = false ∧
    isSensitiveKey "NODE_ENV" = false := by
  refine ⟨?_, by decide, by decide, by decide, by decide⟩
  intro key
  rw [isSensitiveKey, List.any_eq_true]
  constructor
  · rintro ⟨p, hmem, hp⟩
    exact ⟨p, hmem, by rw [← strContains_toUpper_eq_containsCI]; exact hp⟩
  · rintro ⟨p, hmem, hp⟩
    exact ⟨p, hmem, by rw [strContains_toUpper_eq_containsCI]; exact hp⟩

/-- C10: every key containing (case-insensitively) the substring `PATH`
is classified sensitive through the `PAT` pattern, and such values are
masked by the argument, JSON and captured-output masking functions even
though such keys are typically not secrets. -/
theorem pathKeys_are_sensitive :
    (∀ key : String, containsCI key "PATH" = true → isSensitiveKey key = true) ∧
    isSensitiveKey "PATH" = true ∧
    isSensitiveKey "CMCP_CONFIG_PATH" = true ∧
    MaskSensitiveArgs ["--env", "PATH=/usr/bin"] = ["--env", "PATH=***"] ∧
    MaskSensitiveJSON
        (some (Json.obj [("env", Json.obj [("PATH", Json.str "/usr/bin")])])) =
      .ok (Json.obj [("env", Json.obj [("PATH", Json.str "***")])]) ∧
    maskSensitiveOutput "PATH=/usr/bin" = "PATH= ***" := by
  refine ⟨?_, by decide, by decide, by decide, by decide, by decide⟩
  intro key hpath
  rw [← strContains_toUpper_eq_containsCI] at hpath
  have hpat : strContains (strToUpper key) "PAT" = true := by
    rw [show strContains (strToUpper key) "PATH" =
      listContainsSub (strToUpper key).data ("PATH" : String).data from rfl] at hpath
    obtain ⟨i, hi⟩ := (listContainsSub_iff _ _).mp hpath
    rw [show strContains (strToUpper key) "PAT" =
      listContainsSub (strToUpper key).data ("PAT" : String).data from rfl]
    refine (listContainsSub_iff _ _).mpr ⟨i, ?_⟩
    exact listIsPfx_of_append ("PAT" : String).data ['H'] _ hi
  rw [isSensitiveKey, List.any_eq_true]
  exact ⟨"PAT", by decide, hpat⟩

/-- C10 witness: a concrete key containing `PATH`. -/
theorem pathKeys_are_sensitive_witness :
    containsCI "XPATHY" "PATH" = true ∧ isSensitiveKey "XPATHY" = true :=
  ⟨by decide, pathKeys_are_sensitive.1 "XPATHY" (by decide)⟩

/-- C2 counterexample: the claim says the split `-e KEY=VALUE` pattern
(value in the following token) is masked and that a sensitive key's value
is always replaced by `***` — but `MaskSensitiveArgs` leaves the split
`-e` form untouched (the `-e` branch requires the `=` inside the same
token), and an empty sensitive value stays empty instead of becoming
`***`. -/
theorem maskArgs_claim_counterexample :
    isSensitiveKey "API_KEY" = true ∧
    MaskSensitiveArgs ["-e", "API_KEY=secret123"] = ["-e", "API_KEY=secret123"] ∧
    MaskSensitiveArgs ["--env", "API_KEY="] = ["--env", "API_KEY="] := by
  refine ⟨by decide, by decide, by decide⟩

/-- C2 (amended): `MaskSensitiveArgs` preserves length and order; each
output token is the corresponding input token, first rewritten by the
`--env`-next-token step when the previous input token starts with
`--env` (value of a sensitive key replaced by `***`, an empty value by
the empty string), then by the fused `-eKEY=VALUE` step; the split
`-e KEY=VALUE` pattern is not treated; the claim's example holds. -/
theorem maskArgs_behaviour :
    (∀ (args : List String) (i : Nat),
      (MaskSensitiveArgs args).get? i =
        (args.get? i).map (fun t =>
          eFusedMask (if prevEnvFlag args i then envMaskNext t else t))) ∧
    (∀ args : List String, (MaskSensitiveArgs args).length = args.length) ∧
    MaskSensitiveArgs ["--env", "API_KEY=secret123", "--env", "PORT=8080"] =
      ["--env", "API_KEY=***", "--env", "PORT=8080"] := by
  exact ⟨maskSensitiveArgs_pointwise, maskSensitiveArgs_length, by decide⟩

/-- Shape discriminators used when stating claims. -/
def isStrJson : Json → Bool
  | .str _ => true
  | _ => false

def isObjJson : Json → Bool
  | .obj _ => true
  | _ => false

theorem maskEnvGo_ne_err (l : List (String × Json)) : maskEnvGo l ≠ .err := by
  induction l with
  | nil => simp [maskEnvGo]
  | cons hd tl ih =>
    obtain ⟨k, v⟩ := hd
    simp only [maskEnvGo]
    by_cases hs : isSensitiveKey k = true
    · rw [if_pos hs]
      cases v with
      | str s =>
        cases htl : maskEnvGo tl with
        | ok r => simp
        | err => exact absurd htl ih
        | panic => simp
      | null => simp
      | bool b => simp
      | num n => simp
      | arr xs => simp
      | obj fs => simp
    · rw [if_neg hs]
      cases htl : maskEnvGo tl with
      | ok r => simp
      | err => exact absurd htl ih
      | panic => simp

theorem maskEnvGo_panic_of_bad (env : List (String × Json)) (k : String)
    (v : Json) (hmem : (k, v) ∈ env) (hs : isSensitiveKey k = true)
    (hv : isStrJson v = false) : maskEnvGo env = .panic := by
  induction env with
  | nil => cases hmem
  | cons hd tl ih =>
    obtain ⟨k₀, v₀⟩ := hd
    rcases List.mem_cons.mp hmem with hhd | htl
    · injection hhd with h1 h2
      subst h1
      subst h2
      simp only [maskEnvGo]
      rw [if_pos hs]
      cases v with
      | str s => simp [isStrJson] at hv
      | null => rfl
      | bool b => rfl
      | num n => rfl
      | arr xs => rfl
      | obj fs => rfl
    · have hrec := ih htl
      simp only [maskEnvGo]
      by_cases hs₀ : isSensitiveKey k₀ = true
      · rw [if_pos hs₀]
        cases v₀ <;> simp [hrec]
      · rw [if_neg hs₀]
        simp [hrec]

/-- C9 (implicit claim): a sensitive `env` key bound to a non-string JSON
value makes `MaskSensitiveJSON` panic through the unchecked assertion
`value.(string)`; its error result arises only for input that does not
parse as a JSON object (a JSON `null` unmarshals into a `nil` map without
error and is returned as `null`, not as an error). -/
theorem maskJson_panic_behaviour :
    (∀ (fields env : List (String × Json)) (k : String) (v : Json),
       mapLookup "env" fields = some (Json.obj env) →
       (k, v) ∈ env → isSensitiveKey k = true → isStrJson v = false →
       MaskSensitiveJSON (some (Json.obj fields)) = .panic) ∧
    (∀ inp : Option Json,
       MaskSensitiveJSON inp = .err →
         inp = none ∨ ∃ j, inp = some j ∧ isObjJson j = false) := by
  constructor
  · intro fields env k v henv hmem hs hv
    have hpanic := maskEnvGo_panic_of_bad env k v hmem hs hv
    simp [MaskSensitiveJSON, henv, hpanic]
  · intro inp herr
    match inp with
    | none => exact Or.inl rfl
    | some j =>
      cases j with
      | obj fields =>
        exfalso
        simp only [MaskSensitiveJSON] at herr
        cases henv : mapLookup "env" fields with
        | none => rw [henv] at herr; simp at herr
        | some v =>
          cases v with
          | obj env =>
            rw [henv] at herr
            simp only at herr
            cases hmask : maskEnvGo env with
            | ok env' => rw [hmask] at herr; simp at herr
            | err => exact absurd hmask (maskEnvGo_ne_err env)
            | panic => rw [hmask] at herr; simp at herr
          | null => rw [henv] at herr; simp at herr
          | bool b => rw [henv] at herr; simp at herr
          | num n => rw [henv] at herr; simp at herr
          | str s => rw [henv] at herr; simp at herr
          | arr xs => rw [henv] at herr; simp at herr
      | null => simp [MaskSensitiveJSON] at herr
      | bool b => exact Or.inr ⟨Json.bool b, rfl, by simp [isObjJson]⟩
      | num n => exact Or.inr ⟨Json.num n, rfl, by simp [isObjJson]⟩
      | str s => exact Or.inr ⟨Json.str s, rfl, by simp [isObjJson]⟩
      | arr xs => exact Or.inr ⟨Json.arr xs, rfl, by simp [isObjJson]⟩

/-- C9 witness: `{"env": {"API_KEY": 5}}` panics. -/
theorem maskJson_panic_behaviour_witness :
    isSensitiveKey "API_KEY" = true ∧
    isStrJson (Json.num 5) = false ∧
    MaskSensitiveJSON
      (some (Json.obj [("env", Json.obj [("API_KEY", Json.num 5)])])) = .panic :=
  ⟨by decide, by decide,
    maskJson_panic_behaviour.1 [("env", Json.obj [("API_KEY", Json.num 5)])]
      [("API_KEY", Json.num 5)] "API_KEY" (Json.num 5)
      (by decide) (by decide) (by decide) (by decide)⟩

theorem stopAll_errors_iff (isRunning stopOK : String → Bool)
    (names : List String) :
    (StopAllServers isRunning stopOK names).2 ≠ [] ↔
      ∃ n ∈ names, isRunning n = true ∧ stopOK n = false := by
  induction names with
  | nil => simp [StopAllServers]
  | cons n rest ih =>
    by_cases hn : isRunning n = true
    · by_cases hk : stopOK n = true
      · have h2 : (StopAllServers isRunning stopOK (n :: rest)).2 =
            (StopAllServers isRunning stopOK rest).2 := by
          simp [StopAllServers, hn, hk]
        rw [h2, ih]
        constructor
        · rintro ⟨m, hm, hms⟩
          exact ⟨m, List.mem_cons_of_mem n hm, hms⟩
        · rintro ⟨m, hm, hms⟩
          rcases List.mem_cons.mp hm with rfl | hm'
          · exact absurd hms.2 (by simp [hk])
          · exact ⟨m, hm', hms⟩
      · have h2 : (StopAllServers isRunning stopOK (n :: rest)).2 =
            n :: (StopAllServers isRunning stopOK rest).2 := by
          simp [StopAllServers, hn, hk]
        rw [h2]
        constructor
        · intro _
          exact ⟨n, List.mem_cons_self n rest, hn, by simpa using hk⟩
        · intro _
          simp
    · have h2 : (StopAllServers isRunning stopOK (n :: rest)).2 =
          (StopAllServers isRunning stopOK rest).2 := by
        simp [StopAllServers, hn]
      rw [h2, ih]
      constructor
      · rintro ⟨m, hm, hms⟩
        exact ⟨m, List.mem_cons_of_mem n hm, hms⟩
      · rintro ⟨m, hm, hms⟩
        rcases List.mem_cons.mp hm with rfl | hm'
        · exact absurd hms.1 (by simp [hn])
        · exact ⟨m, hm', hms⟩

/-- C7: `StopAllServers` invokes `claude mcp remove` exactly for the
configured names the `IsRunning` probe reports registered, keeps going
past individual failures while collecting them, and reports an aggregate
error iff some individual stop failed; with servers `a` (registered) and
`b` (not), stop runs once, for `a`, with no error. -/
theorem stopAllServers_behaviour :
    (∀ (isRunning stopOK : String → Bool) (names : List String),
      (StopAllServers isRunning stopOK names).1 =
        names.filter (fun n => isRunning n) ∧
      (stopAllHasError isRunning stopOK names = true ↔
        ∃ n ∈ names, isRunning n = true ∧ stopOK n = false)) ∧
    StopAllServers (fun n => n == "a") (fun _ => true) ["a", "b"] = (["a"], []) ∧
    stopAllHasError (fun n => n == "a") (fun _ => true) ["a", "b"] = false := by
  refine ⟨?_, by decide, by decide⟩
  intro isRunning stopOK names
  constructor
  · induction names with
    | nil => rfl
    | cons n rest ih =>
      by_cases hn : isRunning n = true <;>
        simp [StopAllServers, hn, ih, List.filter_cons]
  · rw [stopAllHasError, decide_eq_true_eq]
    exact stopAll_errors_iff isRunning stopOK names

/-- Per-line decision of the scan in `VerifyServerStartedVerbose`: a line
mentioning `name + ":"` decides failure when it carries `✗` or `Failed`
(checked first), success when it carries `✓` or `Connected`; any other
line decides nothing. -/
def scanDecide (name line : String) : Option Bool :=
  if strContains line (name ++ ":") then
    if strContains line "✗" || strContains line "Failed" then some false
    else if strContains line "✓" || strContains line "Connected" then some true
    else none
  else none

theorem scanPoll_cons (name line : String) (rest : List String) :
    scanPoll name (line :: rest) =
      match scanDecide name line with
      | some b => some b
      | none => scanPoll name rest := by
  rw [scanPoll, scanDecide]
  by_cases h₁ : strContains line (name ++ ":") = true
  · rw [if_pos h₁, if_pos h₁]
    by_cases h₂ : (strContains line "✗" || strContains line "Failed") = true
    · rw [if_pos h₂, if_pos h₂]
    · rw [if_neg h₂, if_neg h₂]
      by_cases h₃ : (strContains line "✓" || strContains line "Connected") = true
      · rw [if_pos h₃, if_pos h₃]
      · rw [if_neg h₃, if_neg h₃]
  · rw [if_neg h₁, if_neg h₁]

theorem scanPoll_none_iff (name : String) (lines : List String) :
    scanPoll name lines = none ↔ ∀ l ∈ lines, scanDecide name l = none := by
  induction lines with
  | nil => simp [scanPoll]
  | cons line rest ih =>
    rw [scanPoll_cons]
    cases hd : scanDecide name line with
    | some b =>
      simp only []
      constructor
      · intro h; cases h
      · intro h
        exact absurd (h line (List.mem_cons_self line rest)) (by simp [hd])
    | none =>
      simp only [ih]
      constructor
      · intro h l hl
        rcases List.mem_cons.mp hl with rfl | hl'
        · exact hd
        · exact h l hl'
      · intro h l hl
        exact h l (List.mem_cons_of_mem line hl)

theorem scanPoll_some_iff (name : String) (lines : List String) (b : Bool) :
    scanPoll name lines = some b ↔
      ∃ pre line post, lines = pre ++ line :: post ∧
        (∀ l ∈ pre, scanDecide name l = none) ∧
        scanDecide name line = some b := by
  induction lines with
  | nil =>
    simp only [scanPoll]
    constructor
    · intro h; cases h
    · rintro ⟨pre, line, post, habs, -, -⟩
      exact absurd habs (by simp)
  | cons hd rest ih =>
    rw [scanPoll_cons]
    cases hdec : scanDecide name hd with
    | some b' =>
      simp only []
      constructor
      · intro h
        refine ⟨[], hd, rest, rfl, by simp, ?_⟩
        rw [hdec]
        exact h
      · rintro ⟨pre, line, post, hsplit, hpre, hline⟩
        match pre, hsplit with
        | [], hsplit =>
          have : hd = line := by simpa using congrArg (fun l => l.head?) hsplit
          rw [this, hline] at hdec
          rw [← hdec]
        | p :: pre', hsplit =>
          have hphd : hd = p := by simpa using congrArg (fun l => l.head?) hsplit
          have hnone := hpre p (List.mem_cons_self p pre')
          rw [← hphd] at hnone
          rw [hnone] at hdec
          cases hdec
    | none =>
      rw [ih]
      constructor
      · rintro ⟨pre, line, post, hsplit, hpre, hline⟩
        refine ⟨hd :: pre, line, post, by rw [hsplit]; rfl, ?_, hline⟩
        intro l hl
        rcases List.mem_cons.mp hl with rfl | hl'
        · exact hdec
        · exact hpre l hl'
      · rintro ⟨pre, line, post, hsplit, hpre, hline⟩
        match pre, hsplit with
        | [], hsplit =>
          have : hd = line := by simpa using congrArg (fun l => l.head?) hsplit
          rw [this, hline] at hdec
          cases hdec
        | p :: pre', hsplit =>
          have htail : rest = pre' ++ line :: post := by
            simpa using congrArg (fun l => l.tail) hsplit
          exact ⟨pre', line, post, htail,
            fun l hl => hpre l (List.mem_cons_of_mem p hl), hline⟩

/-- C5 counterexample: the claim's "in particular" clause says a first
poll whose output mentions the name on a line with a failure marker never
yields success; but the scan decides on the first marked line mentioning
the name, so a success-marked line earlier in the same output wins. -/
theorem verify_claim_counterexample :
    VerifyServerStarted "s" ["s: ✓", "s: ✗"] [] [] =
      ⟨true, 1, []⟩ ∧
    strContains "s: ✗" ("s" ++ ":") = true ∧
    strContains "s: ✗" "✗" = true := by
  refine ⟨by decide, by decide, by decide⟩

/-- C5 (amended): the loop polls at most 3 times, sleeping 1s after the
first undecided poll and 2s after the second, none after the third;
within a poll the lines are scanned in order and the first line carrying
`name + ":"` together with a marker decides it — failure for `✗`/`Failed`
(checked before the success markers), success for `✓`/`Connected`; an
undecided poll (in particular one in which the name never appears)
triggers the next attempt, and exhausting all three attempts reports
failure; whenever the first poll's scan decides failure — e.g. when the
first marked line carrying the name has a failure marker — the loop
reports that failure after a single poll and never success. -/
theorem verifyServerStarted_behaviour (name : String)
    (p₁ p₂ p₃ : List String) :
    (VerifyServerStarted name p₁ p₂ p₃).pollsUsed ≤ 3 ∧
    (VerifyServerStarted name p₁ p₂ p₃).sleepsSec =
      [1, 2].take ((VerifyServerStarted name p₁ p₂ p₃).pollsUsed - 1) ∧
    (∀ (lines : List String) (b : Bool),
      scanPoll name lines = some b ↔
        ∃ pre line post, lines = pre ++ line :: post ∧
          (∀ l ∈ pre, scanDecide name l = none) ∧
          scanDecide name line = some b) ∧
    (∀ lines : List String,
      scanPoll name lines = none ↔ ∀ l ∈ lines, scanDecide name l = none) ∧
    ((VerifyServerStarted name p₁ p₂ p₃).success = true ↔
      (scanPoll name p₁ = some true ∨
       (scanPoll name p₁ = none ∧ scanPoll name p₂ = some true) ∨
       (scanPoll name p₁ = none ∧ scanPoll name p₂ = none ∧
         scanPoll name p₃ = some true))) ∧
    (scanPoll name p₁ = none → scanPoll name p₂ = none →
      scanPoll name p₃ = none →
      VerifyServerStarted name p₁ p₂ p₃ = ⟨false, 3, [1, 2]⟩) ∧
    (scanPoll name p₁ = some false →
      VerifyServerStarted name p₁ p₂ p₃ = ⟨false, 1, []⟩) := by
  refine ⟨?_, ?_, scanPoll_some_iff name, scanPoll_none_iff name, ?_, ?_, ?_⟩
  all_goals
    cases h₁ : scanPoll name p₁ with
    | some b₁ =>
      cases b₁ <;> simp [VerifyServerStarted, h₁]
    | none =>
      cases h₂ : scanPoll name p₂ with
      | some b₂ =>
        cases b₂ <;> simp [VerifyServerStarted, h₁, h₂]
      | none =>
        cases h₃ : scanPoll name p₃ with
        | some b₃ =>
          cases b₃ <;> simp [VerifyServerStarted, h₁, h₂, h₃]
        | none => simp [VerifyServerStarted, h₁, h₂, h₃]

/-- C5 witness: a failure-marked first poll is reported as failure after
one poll, and three undecided polls exhaust the loop. -/
theorem verifyServerStarted_behaviour_witness :
    VerifyServerStarted "s" ["s: ✗ Failed"] [] [] = ⟨false, 1, []⟩ ∧
    VerifyServerStarted "s" ["other"] [] [] = ⟨false, 3, [1, 2]⟩ :=
  ⟨(verifyServerStarted_behaviour "s" ["s: ✗ Failed"] [] []).2.2.2.2.2.2
      (by decide),
   (verifyServerStarted_behaviour "s" ["other"] [] []).2.2.2.2.2.1
      (by decide) (by decide) (by decide)⟩

/-- C6 counterexample: `{"mcpServers": null}` has a present, non-object
`mcpServers` value, yet `Load` succeeds with an empty registry instead of
returning an error — `json.Unmarshal` writes `null` into a map as `nil`
without complaint. -/
theorem load_claim_counterexample :
    (LoadConfig (some (some (Json.obj [("mcpServers", Json.null)])))).1 =
      .ok ⟨[]⟩ ∧
    isObjJson Json.null = false := by
  refine ⟨by decide, by decide⟩

/-- C6 (amended): `Load` returns an empty registry without writing to the
configuration file when the file is absent; it errors when the file
exists but does not parse as JSON, and when the `mcpServers` value is
present and is neither an object nor `null` — a `null` value behaves like
an absent key and yields an empty registry. -/
theorem loadConfig_behaviour (fs : Option (Option Json)) :
    (LoadConfig fs).2 = fs ∧
    (fs = none → (LoadConfig fs).1 = .ok ⟨[]⟩) ∧
    (fs = some none → (LoadConfig fs).1 = .readError) ∧
    (∀ (fields : List (String × Json)) (v : Json),
      fs = some (some (Json.obj fields)) →
      mapLookup "mcpServers" (mapFromList fields) = some v →
      isObjJson v = false → v ≠ Json.null →
      (LoadConfig fs).1 = .readError) ∧
    (∀ fields : List (String × Json),
      fs = some (some (Json.obj fields)) →
      mapLookup "mcpServers" (mapFromList fields) = some Json.null →
      (LoadConfig fs).1 = .ok ⟨[]⟩) := by
  refine ⟨?_, ?_, ?_, ?_, ?_⟩
  · match fs with
    | none => rfl
    | some none => rfl
    | some (some j) =>
      simp only [LoadConfig]
      cases decodeConfig j <;> rfl
  · rintro rfl; rfl
  · rintro rfl; rfl
  · rintro fields v rfl hlk hobj hnull
    simp only [LoadConfig, decodeConfig, hlk]
    cases v with
    | null => exact absurd rfl hnull
    | obj ms => simp [isObjJson] at hobj
    | bool b => rfl
    | num n => rfl
    | str s => rfl
    | arr xs => rfl
  · rintro fields rfl hlk
    simp only [LoadConfig, decodeConfig, hlk]

/-- C6 witness: concrete instances for each branch. -/
theorem loadConfig_behaviour_witness :
    (LoadConfig none).1 = .ok ⟨[]⟩ ∧
    (LoadConfig (some none)).1 = .readError ∧
    (LoadConfig (some (some (Json.obj [("mcpServers", Json.num 3)])))).1 =
      .readError :=
  ⟨(loadConfig_behaviour none).2.1 rfl,
   (loadConfig_behaviour (some none)).2.2.1 rfl,
   (loadConfig_behaviour
       (some (some (Json.obj [("mcpServers", Json.num 3)])))).2.2.2.1
     [("mcpServers", Json.num 3)] (Json.num 3) rfl (by decide) (by decide)
     (by decide)⟩

/-- C1: the start-args builder chooses between exactly two encodings by
whether the env map is non-empty.  With empty env it emits
`[mcp, add, name, --, command, args...]` with the target command and
arguments untouched after the `--` separator; with non-empty env it emits
`[mcp, add-json, name, <json>]` whose serialized object holds the extra
fields first and then the known fields — `command` always, `args`, `env`,
`cwd` only when non-empty — with known-field values overriding duplicate
keys in `extra`. -/
theorem buildStartArgs_selection (name : String) (server : MCPServer)
    (hnd : (mapKeys server.extra).Nodup) :
    (server.env = [] →
      selectStartArgs name server =
        ["mcp", "add", name, "--", server.command] ++ server.args) ∧
    (server.env ≠ [] →
      selectStartArgs name server =
        ["mcp", "add-json", name,
          renderJson (Json.obj (startServerJson server))] ∧
      mapLookup "command" (startServerJson server) =
        some (Json.str server.command) ∧
      mapLookup "env" (startServerJson server) =
        some (Json.obj (server.env.map (fun kv => (kv.1, Json.str kv.2)))) ∧
      mapLookup "args" (startServerJson server) =
        (if server.args = [] then mapLookup "args" server.extra
         else some (Json.arr (server.args.map Json.str))) ∧
      mapLookup "cwd" (startServerJson server) =
        (if server.cwd = "" then mapLookup "cwd" server.extra
         else some (Json.str server.cwd)) ∧
      (∀ k, k ≠ "command" → k ≠ "args" → k ≠ "env" → k ≠ "cwd" →
        mapLookup k (startServerJson server) = mapLookup k server.extra)) := by
  constructor
  · intro henv
    simp [selectStartArgs, buildStartArgs, henv, envFlags]
  · intro henv
    have hlen : 0 < server.env.length :=
      List.length_pos.mpr henv
    refine ⟨?_, ?_, ?_, ?_, ?_, ?_⟩
    · simp [selectStartArgs, buildStartArgsJSON, hlen]
    · simp only [startServerJson, mapFromList_nodup server.extra hnd]
      by_cases hargs : server.args.length > 0 <;>
        by_cases hcwd : server.cwd = "" <;>
          simp [hargs, hcwd, hlen, mapLookup_mapInsert,
            show ("cwd" : String) ≠ "command" from by decide,
            show ("env" : String) ≠ "command" from by decide,
            show ("args" : String) ≠ "command" from by decide]
    · simp only [startServerJson, mapFromList_nodup server.extra hnd]
      by_cases hargs : server.args.length > 0 <;>
        by_cases hcwd : server.cwd = "" <;>
          simp [hargs, hcwd, hlen, mapLookup_mapInsert,
            show ("cwd" : String) ≠ "env" from by decide]
    · simp only [startServerJson, mapFromList_nodup server.extra hnd]
      have hiff : server.args = [] ↔ ¬(server.args.length > 0) := by
        cases server.args <;> simp
      by_cases hargs : server.args.length > 0 <;>
        by_cases hcwd : server.cwd = "" <;>
          simp [hargs, hcwd, hlen, hiff, mapLookup_mapInsert,
            show ("cwd" : String) ≠ "args" from by decide,
            show ("env" : String) ≠ "args" from by decide,
            show ("command" : String) ≠ "args" from by decide]
    · simp only [startServerJson, mapFromList_nodup server.extra hnd]
      by_cases hargs : server.args.length > 0 <;>
        by_cases hcwd : server.cwd = "" <;>
          simp [hargs, hcwd, hlen, mapLookup_mapInsert,
            show ("env" : String) ≠ "cwd" from by decide,
            show ("args" : String) ≠ "cwd" from by decide,
            show ("command" : String) ≠ "cwd" from by decide]
    · intro k hkc hka hke hkw
      simp only [startServerJson, mapFromList_nodup server.extra hnd]
      by_cases hargs : server.args.length > 0 <;>
        by_cases hcwd : server.cwd = "" <;>
          simp [hargs, hcwd, hlen, mapLookup_mapInsert,
            Ne.symm hkc, Ne.symm hka, Ne.symm hke, Ne.symm hkw]

/-- C1 witness: concrete servers exercising both encodings. -/
theorem buildStartArgs_selection_witness :
    selectStartArgs "n" ⟨"cmd", ["x"], [], "", []⟩ =
      ["mcp", "add", "n", "--", "cmd", "x"] ∧
    selectStartArgs "n" ⟨"cmd", [], [("TOKEN", "t")], "", []⟩ =
      ["mcp", "add-json", "n",
        renderJson (Json.obj
          (startServerJson ⟨"cmd", [], [("TOKEN", "t")], "", []⟩))] :=
  ⟨(buildStartArgs_selection "n" ⟨"cmd", ["x"], [], "", []⟩ (by decide)).1 rfl,
   ((buildStartArgs_selection "n" ⟨"cmd", [], [("TOKEN", "t")], "", []⟩
      (by decide)).2 (by decide)).1⟩

/-- C8 counterexample: for the sensitive key `api_key` (matched through
`KEY` case-insensitively) the substituted token keeps its JSON quotes in
the rendered text — the quote-stripping regex only recognises variable
names made of `[A-Z_][A-Z0-9_]*`, which excludes lowercase letters. -/
theorem prettyMask_claim_counterexample :
    MaskSensitiveJSONPretty
        (some (Json.obj [("env", Json.obj [("api_key", Json.str "v")])])) "  " =
      .ok "\x7b\n  \"env\": \x7b\n    \"api_key\": \"$api_key\"\n  \x7d\n\x7d" ∧
    isSensitiveKey "api_key" = true ∧
    strContains "\x7b\n  \"env\": \x7b\n    \"api_key\": \"$api_key\"\n  \x7d\n\x7d"
      "\"$api_key\"" = true := by
  refine ⟨by decide, by decide, by decide⟩

/-- C8 (amended): `MaskSensitiveJSONPretty` replaces each sensitive env
value with the shell-style reference from `getBashVariable` (alias table
for well-known keys, `$<ENV_KEY_NAME>` otherwise) and leaves
non-sensitive env values and non-`env` members unchanged; it
pretty-prints with the given indent unit and strips the JSON string
quotes around a substituted token only when the variable name matches
`[A-Z_][A-Z0-9_]*` — tokens whose key contains other characters (such as
lowercase letters) remain quoted. -/
theorem prettyMask_behaviour :
    (∀ (env : List (String × Json)) (k : String),
      mapLookup k (env.map (fun kv =>
          if isSensitiveKey kv.1 then (kv.1, Json.str (getBashVariable kv.1))
          else kv)) =
        (mapLookup k env).map (fun v =>
          if isSensitiveKey k then Json.str (getBashVariable k) else v)) ∧
    (∀ (fields env : List (String × Json)) (k : String),
      mapLookup "env" fields = some (Json.obj env) → k ≠ "env" →
      mapLookup k (mapInsert fields "env" (Json.obj (env.map (fun kv =>
          if isSensitiveKey kv.1 then (kv.1, Json.str (getBashVariable kv.1))
          else kv)))) = mapLookup k fields) ∧
    MaskSensitiveJSONPretty
        (some (Json.obj [("command", Json.str "docker"),
          ("env", Json.obj [("GITHUB_PERSONAL_ACCESS_TOKEN",
            Json.str "ghp_x")])])) "  " =
      .ok "\x7b\n  \"command\": \"docker\",\n  \"env\": \x7b\n    \"GITHUB_PERSONAL_ACCESS_TOKEN\": $GITHUB_TOKEN\n  \x7d\n\x7d" ∧
    strContains
      "\x7b\n  \"command\": \"docker\",\n  \"env\": \x7b\n    \"GITHUB_PERSONAL_ACCESS_TOKEN\": $GITHUB_TOKEN\n  \x7d\n\x7d"
      "ghp_x" = false ∧
    MaskSensitiveJSONPretty
        (some (Json.obj [("env", Json.obj [("MY_PAT", Json.str "x")])])) "  " =
      .ok "\x7b\n  \"env\": \x7b\n    \"MY_PAT\": $MY_PAT\n  \x7d\n\x7d" := by
  refine ⟨?_, ?_, by decide, by decide, by decide⟩
  · intro env k
    induction env with
    | nil => simp
    | cons hd tl ih =>
      obtain ⟨k₀, v₀⟩ := hd
      by_cases hk : k₀ = k
      · subst hk
        by_cases hs : isSensitiveKey k₀ = true <;> simp [hs]
      · by_cases hs : isSensitiveKey k₀ = true <;> simp [hs, hk, ih]
  · intro fields env k henv hk
    rw [mapLookup_mapInsert]
    rw [if_neg (fun h => hk h.symm)]

/-- C8 witness: a concrete instance of the non-`env` member invariance. -/
theorem prettyMask_behaviour_witness :
    mapLookup "PORT"
      (mapInsert [("command", Json.str "npx"),
          ("env", Json.obj [("MY_TOKEN", Json.str "x")])] "env"
        (Json.obj ([("MY_TOKEN", Json.str "x")].map (fun kv =>
          if isSensitiveKey kv.1 then (kv.1, Json.str (getBashVariable kv.1))
          else kv)))) =
      mapLookup "PORT" [("command", Json.str "npx"),
        ("env", Json.obj [("MY_TOKEN", Json.str "x")])] :=
  prettyMask_behaviour.2.1 _ [("MY_TOKEN", Json.str "x")] "PORT"
    (by decide) (by decide)

/-! ## Round-trip lemmas (C4) -/

theorem argsExtract (xs : List String) :
    (xs.map Json.str).map
      (fun x => match x with | Json.str s => s | _ => "") = xs := by
  induction xs with
  | nil => rfl
  | cons a tl ih => simp [ih]

theorem envExtract (e : List (String × String)) :
    (e.map (fun kv => (kv.1, Json.str kv.2))).filterMap (fun kv =>
      match kv.2 with | Json.str s => some (kv.1, s) | _ => none) = e := by
  induction e with
  | nil => rfl
  | cons a tl ih => simp [ih]

theorem mapKeys_mapStrPairs (e : List (String × String)) :
    mapKeys (e.map (fun kv => (kv.1, Json.str kv.2))) = e.map Prod.fst := by
  simp [mapKeys, List.map_map]

/-- Lookups of other keys pass through `extractCommand`. -/
theorem extractCommand_snd_lookup (raw : List (String × Json)) (k : String)
    (hk : k ≠ "command") :
    mapLookup k (extractCommand raw).2 = mapLookup k raw := by
  rw [extractCommand]
  cases h : mapLookup "command" raw with
  | none => rfl
  | some v =>
    cases v with
    | str c => exact mapLookup_mapErase_ne raw "command" k (fun e => hk e.symm)
    | null => rfl
    | bool b => rfl
    | num n => rfl
    | arr xs => rfl
    | obj fs => rfl

theorem extractArgs_snd_lookup (raw : List (String × Json)) (k : String)
    (hk : k ≠ "args") :
    mapLookup k (extractArgs raw).2 = mapLookup k raw := by
  rw [extractArgs]
  cases h : mapLookup "args" raw with
  | none => rfl
  | some v =>
    cases v with
    | arr xs => exact mapLookup_mapErase_ne raw "args" k (fun e => hk e.symm)
    | null => rfl
    | bool b => rfl
    | num n => rfl
    | str s => rfl
    | obj fs => rfl

theorem extractEnv_snd_lookup (raw : List (String × Json)) (k : String)
    (hk : k ≠ "env") :
    mapLookup k (extractEnv raw).2 = mapLookup k raw := by
  rw [extractEnv]
  cases h : mapLookup "env" raw with
  | none => rfl
  | some v =>
    cases v with
    | obj fs => exact mapLookup_mapErase_ne raw "env" k (fun e => hk e.symm)
    | null => rfl
    | bool b => rfl
    | num n => rfl
    | str s => rfl
    | arr xs => rfl

theorem extractCwd_snd_lookup (raw : List (String × Json)) (k : String)
    (hk : k ≠ "cwd") :
    mapLookup k (extractCwd raw).2 = mapLookup k raw := by
  rw [extractCwd]
  cases h : mapLookup "cwd" raw with
  | none => rfl
  | some v =>
    cases v with
    | str c => exact mapLookup_mapErase_ne raw "cwd" k (fun e => hk e.symm)
    | null => rfl
    | bool b => rfl
    | num n => rfl
    | arr xs => rfl
    | obj fs => rfl

theorem extractCommand_keys_sublist (raw : List (String × Json)) :
    (mapKeys (extractCommand raw).2).Sublist (mapKeys raw) := by
  rw [extractCommand]
  cases h : mapLookup "command" raw with
  | none => exact List.Sublist.refl _
  | some v =>
    cases v with
    | str c => exact mapKeys_mapErase_sublist "command" raw
    | null => exact List.Sublist.refl _
    | bool b => exact List.Sublist.refl _
    | num n => exact List.Sublist.refl _
    | arr xs => exact List.Sublist.refl _
    | obj fs => exact List.Sublist.refl _

theorem extractArgs_keys_sublist (raw : List (String × Json)) :
    (mapKeys (extractArgs raw).2).Sublist (mapKeys raw) := by
  rw [extractArgs]
  cases h : mapLookup "args" raw with
  | none => exact List.Sublist.refl _
  | some v =>
    cases v with
    | arr xs => exact mapKeys_mapErase_sublist "args" raw
    | null => exact List.Sublist.refl _
    | bool b => exact List.Sublist.refl _
    | num n => exact List.Sublist.refl _
    | str s => exact List.Sublist.refl _
    | obj fs => exact List.Sublist.refl _

theorem extractEnv_keys_sublist (raw : List (String × Json)) :
    (mapKeys (extractEnv raw).2).Sublist (mapKeys raw) := by
  rw [extractEnv]
  cases h : mapLookup "env" raw with
  | none => exact List.Sublist.refl _
  | some v =>
    cases v with
    | obj fs => exact mapKeys_mapErase_sublist "env" raw
    | null => exact List.Sublist.refl _
    | bool b => exact List.Sublist.refl _
    | num n => exact List.Sublist.refl _
    | str s => exact List.Sublist.refl _
    | arr xs => exact List.Sublist.refl _

theorem extractCwd_keys_sublist (raw : List (String × Json)) :
    (mapKeys (extractCwd raw).2).Sublist (mapKeys raw) := by
  rw [extractCwd]
  cases h : mapLookup "cwd" raw with
  | none => exact List.Sublist.refl _
  | some v =>
    cases v with
    | str c => exact mapKeys_mapErase_sublist "cwd" raw
    | null => exact List.Sublist.refl _
    | bool b => exact List.Sublist.refl _
    | num n => exact List.Sublist.refl _
    | arr xs => exact List.Sublist.refl _
    | obj fs => exact List.Sublist.refl _

/-! Lookups of the known keys against `marshalMCPServer`. -/

theorem marshal_lookup_command (sv : MCPServer) :
    mapLookup "command" (marshalMCPServer sv) = some (Json.str sv.command) := by
  simp only [marshalMCPServer]
  by_cases ha : sv.args.length > 0 <;> by_cases he : sv.env.length > 0 <;>
    by_cases hw : sv.cwd = "" <;>
      simp [ha, he, hw, mapLookup_mapInsert,
        show ("cwd" : String) ≠ "command" from by decide,
        show ("env" : String) ≠ "command" from by decide,
        show ("args" : String) ≠ "command" from by decide]

theorem marshal_lookup_args (sv : MCPServer) :
    mapLookup "args" (marshalMCPServer sv) =
      (if sv.args.length > 0 then some (Json.arr (sv.args.map Json.str))
       else mapLookup "args" (mapFromList sv.extra)) := by
  simp only [marshalMCPServer]
  by_cases ha : sv.args.length > 0 <;> by_cases he : sv.env.length > 0 <;>
    by_cases hw : sv.cwd = "" <;>
      simp [ha, he, hw, mapLookup_mapInsert,
        show ("cwd" : String) ≠ "args" from by decide,
        show ("env" : String) ≠ "args" from by decide,
        show ("command" : String) ≠ "args" from by decide]

theorem marshal_lookup_env (sv : MCPServer) :
    mapLookup "env" (marshalMCPServer sv) =
      (if sv.env.length > 0 then
        some (Json.obj (sv.env.map (fun kv => (kv.1, Json.str kv.2))))
       else mapLookup "env" (mapFromList sv.extra)) := by
  simp only [marshalMCPServer]
  by_cases ha : sv.args.length > 0 <;> by_cases he : sv.env.length > 0 <;>
    by_cases hw : sv.cwd = "" <;>
      simp [ha, he, hw, mapLookup_mapInsert,
        show ("cwd" : String) ≠ "env" from by decide,
        show ("args" : String) ≠ "env" from by decide,
        show ("command" : String) ≠ "env" from by decide]

theorem marshal_lookup_cwd (sv : MCPServer) :
    mapLookup "cwd" (marshalMCPServer sv) =
      (if sv.cwd = "" then mapLookup "cwd" (mapFromList sv.extra)
       else some (Json.str sv.cwd)) := by
  simp only [marshalMCPServer]
  by_cases ha : sv.args.length > 0 <;> by_cases he : sv.env.length > 0 <;>
    by_cases hw : sv.cwd = "" <;>
      simp [ha, he, hw, mapLookup_mapInsert,
        show ("env" : String) ≠ "cwd" from by decide,
        show ("args" : String) ≠ "cwd" from by decide,
        show ("command" : String) ≠ "cwd" from by decide]

theorem marshal_lookup_other (sv : MCPServer) (k : String)
    (hk1 : k ≠ "command") (hk2 : k ≠ "args") (hk3 : k ≠ "env")
    (hk4 : k ≠ "cwd") :
    mapLookup k (marshalMCPServer sv) = mapLookup k (mapFromList sv.extra) := by
  simp only [marshalMCPServer]
  by_cases ha : sv.args.length > 0 <;> by_cases he : sv.env.length > 0 <;>
    by_cases hw : sv.cwd = "" <;>
      simp [ha, he, hw, mapLookup_mapInsert,
        Ne.symm hk1, Ne.symm hk2, Ne.symm hk3, Ne.symm hk4]

/-- The claim's expected output: the input record with empty optional
fields (`args`, `env`, `cwd`) removed, as `MarshalJSON` omits them. -/
def dropEmptyOptionals (r : List (String × Json)) : List (String × Json) :=
  r.filter (fun kv =>
    if kv.1 = "args" ∧ kv.2 = Json.arr [] then false
    else if kv.1 = "env" ∧ kv.2 = Json.obj [] then false
    else if kv.1 = "cwd" ∧ kv.2 = Json.str "" then false
    else true)

/-- C4: unmarshalling a well-formed server record (a JSON object with a
string `command`, an optional array-of-strings `args`, an optional
string-valued `env` object, an optional string `cwd`, and arbitrary
further fields) and marshalling it back reproduces every field present at
load time under order-insensitive structural comparison — unknown fields
are stashed in `Extra` and re-emitted, known-field values override
duplicate keys of `Extra`, and empty optional fields are omitted from the
output. -/
theorem unmarshal_marshal_roundtrip (r : List (String × Json)) (c : String)
    (hnd : (mapKeys r).Nodup)
    (hcmd : mapLookup "command" r = some (Json.str c))
    (hargs : mapLookup "args" r = none ∨
      ∃ xs : List String,
        mapLookup "args" r = some (Json.arr (xs.map Json.str)))
    (henv : mapLookup "env" r = none ∨
      ∃ e : List (String × String),
        mapLookup "env" r =
          some (Json.obj (e.map (fun kv => (kv.1, Json.str kv.2)))) ∧
        (e.map Prod.fst).Nodup)
    (hcwd : mapLookup "cwd" r = none ∨
      ∃ s : String, mapLookup "cwd" r = some (Json.str s)) :
    ∀ sv, decodeMCPServer (Json.obj r) = some sv →
      ∀ k, mapLookup k (marshalMCPServer sv) =
        mapLookup k (dropEmptyOptionals r) := by
  intro sv hsv k
  have hfrom : mapFromList r = r := mapFromList_nodup r hnd
  have hrec := hsv
  simp only [decodeMCPServer, hfrom] at hrec
  have hsv2 := Option.some.inj hrec
  subst hsv2
  have hec : extractCommand r = (c, mapErase "command" r) := by
    rw [extractCommand, hcmd]
  have hnd1 : (mapKeys (mapErase "command" r)).Nodup :=
    nodup_mapKeys_mapErase "command" r hnd
  simp only [hec]
  have hargs1 : mapLookup "args" (mapErase "command" r) = mapLookup "args" r :=
    mapLookup_mapErase_ne r "command" "args" (by decide)
  have henv1 : mapLookup "env" (mapErase "command" r) = mapLookup "env" r :=
    mapLookup_mapErase_ne r "command" "env" (by decide)
  have hcwd1 : mapLookup "cwd" (mapErase "command" r) = mapLookup "cwd" r :=
    mapLookup_mapErase_ne r "command" "cwd" (by decide)
  -- Name the intermediate maps of the three remaining extraction steps.
  obtain ⟨A, r2, hA⟩ : ∃ A r2, extractArgs (mapErase "command" r) = (A, r2) :=
    ⟨_, _, rfl⟩
  obtain ⟨E, r3, hE⟩ : ∃ E r3, extractEnv r2 = (E, r3) := ⟨_, _, rfl⟩
  obtain ⟨W, r4, hW⟩ : ∃ W r4, extractCwd r3 = (W, r4) := ⟨_, _, rfl⟩
  simp only [hA, hE, hW]
  -- Branch facts for the `args` step.
  have hargsStep : (mapLookup "args" r = none ∧ A = [] ∧
      r2 = mapErase "command" r) ∨
      (∃ xs : List String,
        mapLookup "args" r = some (Json.arr (xs.map Json.str)) ∧ A = xs ∧
        r2 = mapErase "args" (mapErase "command" r)) := by
    rcases hargs with hnone | ⟨xs, hsome⟩
    · left
      have : extractArgs (mapErase "command" r) =
          ([], mapErase "command" r) := by
        simp only [extractArgs, hargs1, hnone]
      rw [hA] at this
      injection this with h1 h2
      exact ⟨hnone, h1, h2⟩
    · right
      have : extractArgs (mapErase "command" r) =
          (xs, mapErase "args" (mapErase "command" r)) := by
        simp only [extractArgs, hargs1, hsome]
        rw [argsExtract]
      rw [hA] at this
      injection this with h1 h2
      exact ⟨xs, hsome, h1, h2⟩
  have hnd2 : (mapKeys r2).Nodup := by
    have := hnd1.sublist (extractArgs_keys_sublist (mapErase "command" r))
    rw [hA] at this
    exact this
  have hlook2 : ∀ k', k' ≠ "args" →
      mapLookup k' r2 = mapLookup k' (mapErase "command" r) := by
    intro k' hk'
    have := extractArgs_snd_lookup (mapErase "command" r) k' hk'
    rw [hA] at this
    exact this
  -- Branch facts for the `env` step.
  have henvStep : (mapLookup "env" r = none ∧ E = [] ∧ r3 = r2) ∨
      (∃ e : List (String × String),
        mapLookup "env" r =
          some (Json.obj (e.map (fun kv => (kv.1, Json.str kv.2)))) ∧
        E = e ∧ r3 = mapErase "env" r2) := by
    have henv2 : mapLookup "env" r2 = mapLookup "env" r := by
      rw [hlook2 "env" (by decide), henv1]
    rcases henv with hnone | ⟨e, hsome, hnde⟩
    · left
      have : extractEnv r2 = ([], r2) := by
        simp only [extractEnv, henv2, hnone]
      rw [hE] at this
      injection this with h1 h2
      exact ⟨hnone, h1, h2⟩
    · right
      have heemap : mapFromList (e.map (fun kv => (kv.1, Json.str kv.2))) =
          e.map (fun kv => (kv.1, Json.str kv.2)) := by
        apply mapFromList_nodup
        rw [mapKeys_mapStrPairs]
        exact hnde
      have : extractEnv r2 = (e, mapErase "env" r2) := by
        simp only [extractEnv, henv2, hsome, heemap]
        rw [envExtract]
      rw [hE] at this
      injection this with h1 h2
      exact ⟨e, hsome, h1, h2⟩
  have hnd3 : (mapKeys r3).Nodup := by
    have := hnd2.sublist (extractEnv_keys_sublist r2)
    rw [hE] at this
    exact this
  have hlook3 : ∀ k', k' ≠ "env" → mapLookup k' r3 = mapLookup k' r2 := by
    intro k' hk'
    have := extractEnv_snd_lookup r2 k' hk'
    rw [hE] at this
    exact this
  -- Branch facts for the `cwd` step.
  have hcwdStep : (mapLookup "cwd" r = none ∧ W = "" ∧ r4 = r3) ∨
      (∃ s : String, mapLookup "cwd" r = some (Json.str s) ∧ W = s ∧
        r4 = mapErase "cwd" r3) := by
    have hcwd3 : mapLookup "cwd" r3 = mapLookup "cwd" r := by
      rw [hlook3 "cwd" (by decide), hlook2 "cwd" (by decide), hcwd1]
    rcases hcwd with hnone | ⟨s, hsome⟩
    · left
      have : extractCwd r3 = ("", r3) := by
        simp only [extractCwd, hcwd3, hnone]
      rw [hW] at this
      injection this with h1 h2
      exact ⟨hnone, h1, h2⟩
    · right
      have : extractCwd r3 = (s, mapErase "cwd" r3) := by
        simp only [extractCwd, hcwd3, hsome]
      rw [hW] at this
      injection this with h1 h2
      exact ⟨s, hsome, h1, h2⟩
  have hnd4 : (mapKeys r4).Nodup := by
    have := hnd3.sublist (extractCwd_keys_sublist r3)
    rw [hW] at this
    exact this
  have hlook4 : ∀ k', k' ≠ "cwd" → mapLookup k' r4 = mapLookup k' r3 := by
    intro k' hk'
    have := extractCwd_snd_lookup r3 k' hk'
    rw [hW] at this
    exact this
  have hfrom4 : mapFromList r4 = r4 := mapFromList_nodup r4 hnd4
  clear hA hE hW hrec hsv
  -- Right-hand side through the filter characterisation.
  rw [dropEmptyOptionals, mapLookup_filter _ r k hnd]
  by_cases hk1 : k = "command"
  · subst hk1
    rw [marshal_lookup_command, hcmd]
    simp [show ("command" : String) ≠ "args" from by decide,
      show ("command" : String) ≠ "env" from by decide,
      show ("command" : String) ≠ "cwd" from by decide]
  by_cases hk2 : k = "args"
  · subst hk2
    rw [marshal_lookup_args]
    have hr4 : mapLookup "args" r4 = mapLookup "args" r2 := by
      rw [hlook4 "args" (by decide), hlook3 "args" (by decide)]
    rcases hargsStep with ⟨hnone, hAeq, hr2⟩ | ⟨xs, hsome, hAeq, hr2⟩
    · rw [hAeq, hnone]
      simp only [hfrom4]
      rw [hr4, hr2, hargs1, hnone]
      simp
    · rw [hAeq, hsome]
      by_cases hxs : xs = []
      · subst hxs
        simp only [hfrom4]
        rw [hr4, hr2, mapLookup_mapErase_self "args" _ hnd1]
        simp
      · have hlen : xs.length > 0 := List.length_pos.mpr hxs
        simp [hlen, hxs]
  by_cases hk3 : k = "env"
  · subst hk3
    rw [marshal_lookup_env]
    have hr4 : mapLookup "env" r4 = mapLookup "env" r3 :=
      hlook4 "env" (by decide)
    rcases henvStep with ⟨hnone, hEeq, hr3⟩ | ⟨e, hsome, hEeq, hr3⟩
    · rw [hEeq, hnone]
      simp only [hfrom4]
      rw [hr4, hr3, hlook2 "env" (by decide), henv1, hnone]
      simp
    · rw [hEeq, hsome]
      by_cases he : e = []
      · subst he
        simp only [hfrom4]
        rw [hr4, hr3, mapLookup_mapErase_self "env" _ hnd2]
        simp
      · have hlen : e.length > 0 := List.length_pos.mpr he
        simp [hlen, he]
  by_cases hk4 : k = "cwd"
  · subst hk4
    rw [marshal_lookup_cwd]
    rcases hcwdStep with ⟨hnone, hWeq, hr4eq⟩ | ⟨s, hsome, hWeq, hr4eq⟩
    · rw [hWeq, hnone]
      simp only [hfrom4]
      rw [hr4eq, hlook3 "cwd" (by decide), hlook2 "cwd" (by decide),
        hcwd1, hnone]
      simp
    · rw [hWeq, hsome]
      by_cases hs : s = ""
      · subst hs
        simp only [hfrom4]
        rw [hr4eq, mapLookup_mapErase_self "cwd" _ hnd3]
        simp
      · simp [hs]
  · rw [marshal_lookup_other _ k hk1 hk2 hk3 hk4]
    simp only [hfrom4]
    rw [hlook4 k hk4, hlook3 k hk3, hlook2 k hk2,
      mapLookup_mapErase_ne r "command" k (fun h => hk1 h.symm)]
    cases hv : mapLookup k r with
    | none => simp
    | some v => simp [hk2, hk3, hk4]

/-- C4 witness: a record with all known fields and an unknown one,
instantiated at the unknown key. -/
theorem unmarshal_marshal_roundtrip_witness :
    mapLookup "custom"
      (marshalMCPServer
        ⟨"c", ["x"], [("API_KEY", "v")], "/tmp", [("custom", Json.num 7)]⟩) =
      mapLookup "custom" (dropEmptyOptionals
        [("command", Json.str "c"), ("args", Json.arr [Json.str "x"]),
         ("env", Json.obj [("API_KEY", Json.str "v")]),
         ("cwd", Json.str "/tmp"), ("custom", Json.num 7)]) :=
  unmarshal_marshal_roundtrip
    [("command", Json.str "c"), ("args", Json.arr [Json.str "x"]),
     ("env", Json.obj [("API_KEY", Json.str "v")]),
     ("cwd", Json.str "/tmp"), ("custom", Json.num 7)]
    "c" (by decide) (by decide)
    (Or.inr ⟨["x"], by decide⟩)
    (Or.inr ⟨[("API_KEY", "v")], by decide, by decide⟩)
    (Or.inr ⟨"/tmp", by decide⟩)
    ⟨"c", ["x"], [("API_KEY", "v")], "/tmp", [("custom", Json.num 7)]⟩
    (by decide) "custom"

end Cmcp
